import Mathlib

/-!
Shallow embedding of the COVID-19 reconciliation pipeline from `analysis.py`.

A pandas DataFrame is modelled as a list of rows; the positional index of a
row in the list plays the role of the pandas index (the pipeline sorts with
`ignore_index=True`, so labels are positional).  A cell holds `Option ℚ`
(`none` models NaN, i.e. a missing report); float values are modelled as
rationals.  Cells of a row are a function from column name to `Option ℚ` so
that writes (`df.loc[index, col] = v`) are function updates.
-/

set_option autoImplicit false

namespace Covid

/-- One row of the table: a reporting region (canton), a calendar date
(days since an arbitrary epoch), and the metric cells. -/
structure Row where
  canton : String
  date : ℕ
  cells : String → Option ℚ

/-- Read the cell at positional index `i`, column `col` (`df.loc[i, col]`);
`none` both for NaN and for an out-of-range index. -/
def getCellAt (df : List Row) (i : ℕ) (col : String) : Option ℚ :=
  match df.get? i with
  | none => none
  | some r => r.cells col

/-- Write value `v` into the cell at positional index `i`, column `col`
(`df.loc[i, col] = v`); out-of-range writes are dropped. -/
def setCellAt : List Row → ℕ → String → ℚ → List Row
  | [], _, _, _ => []
  | r :: rs, 0, col, v => { r with cells := Function.update r.cells col (some v) } :: rs
  | r :: rs, i + 1, col, v => r :: setCellAt rs i col v

/-- Pandas `Series.unique()`: the distinct elements of a list in order of
first occurrence. -/
def uniqueList {α : Type} [DecidableEq α] : List α → List α
  | [] => []
  | x :: xs => x :: (uniqueList xs).filter (fun y => decide (y ≠ x))

/-- The positional indices of the rows of canton `c`, in order
(`df[df['canton'] == c].index`). -/
def cantonIndices (df : List Row) (c : String) : List ℕ :=
  (List.range df.length).filter (fun i => decide ((df.get? i).map Row.canton = some c))

/-- The mutable state of the inner loop of `check_inconsistencies`:
the table being (possibly) filled, the accumulated inconsistency list,
and the `has_value` / `max_value` accumulators. -/
structure SeriesState where
  df : List Row
  inc : List (ℕ × String)
  hasValue : Bool
  maxValue : ℚ

/-- One iteration of the inner loop of `check_inconsistencies` (the body of
`for index in df[df['canton'] == canton][col_name].index`).  Faithful to the
source: the leading-gap fill is guarded by `fillna`, the mid-series gap fill
is not; a value strictly below the running maximum is recorded and left
as-is; otherwise the running maximum is updated. -/
def visitCell (fillna : Bool) (col : String) (s : SeriesState) (idx : ℕ) : SeriesState :=
  if s.hasValue = false then
    match getCellAt s.df idx col with
    | none => if fillna then { s with df := setCellAt s.df idx col s.maxValue } else s
    | some v => { s with hasValue := true, maxValue := v }
  else
    match getCellAt s.df idx col with
    | none => { s with df := setCellAt s.df idx col s.maxValue }
    | some v =>
      if s.maxValue > v then { s with inc := s.inc ++ [(idx, col)] }
      else { s with maxValue := v }

/-- One (column, canton) series scan of `check_inconsistencies`: fold the
cell visitor over that canton's row indices, starting from
`has_value = False`, `max_value = 0`. -/
def visitSeries (fillna : Bool) (col : String) (canton : String)
    (acc : List Row × List (ℕ × String)) : List Row × List (ℕ × String) :=
  let s := (cantonIndices acc.1 canton).foldl (visitCell fillna col)
    ⟨acc.1, acc.2, false, 0⟩
  (s.df, s.inc)

/-- The function `check_inconsistencies(df, columns, fillna)`: for every
column and every canton (in `df['canton'].unique()` order) scan that series.
Returns the (possibly filled) table together with the list of
inconsistencies `(index, column)`; the source mutates `df` in place and
returns only the list, which is the same data. -/
def check_inconsistencies (df : List Row) (columns : List String) (fillna : Bool) :
    List Row × List (ℕ × String) :=
  let cantons := uniqueList (df.map Row.canton)
  columns.foldl (fun acc col =>
    cantons.foldl (fun acc canton => visitSeries fillna col canton acc) acc)
    (df, [])

/-- The function `no_same_day_reports(df)`: the cantons whose date axis has a
repeated entry, in `unique()` order. -/
def no_same_day_reports (df : List Row) : List String :=
  (uniqueList (df.map Row.canton)).filter
    (fun c => decide (¬ ((df.filter (fun r => decide (r.canton = c))).map Row.date).Nodup))

/-- Minimum of the dates of a table (`df.date.min()`); `0` for an empty
table (the source would propagate NaN, reachable only on empty input). -/
def dMin (df : List Row) : ℕ :=
  match df.map Row.date with
  | [] => 0
  | d :: ds => ds.foldl min d

/-- Maximum of the dates of a table (`df.date.max()`). -/
def dMax (df : List Row) : ℕ :=
  match df.map Row.date with
  | [] => 0
  | d :: ds => ds.foldl max d

/-- The inner loop of the copy phase of `make_new_df`: for every cumulative
column, if the original row has a value, write it into grid slot `i`
(`if not np.isnan(row[col]): full_df.loc[full_df_id, col] = row[col]`). -/
def copyRowCells (cumul_columns : List String) (row : Row) (i : ℕ) (g : List Row) :
    List Row :=
  cumul_columns.foldl (fun g col =>
    match row.cells col with
    | none => g
    | some v => setCellAt g i col v) g

/-- One iteration of the copy phase of `make_new_df`: locate the first grid
slot with the row's canton and date (`full_df_id = ...index[0]`) and copy
the row's present cumulative values there. -/
def copyRow (cumul_columns : List String) (grid : List Row) (row : Row) : List Row :=
  match grid.findIdx? (fun r => decide (r.canton = row.canton ∧ r.date = row.date)) with
  | none => grid
  | some i => copyRowCells cumul_columns row i grid

/-- The empty grid skeleton of `make_new_df`: one row per (date, canton) in
the full range `min_date .. max_date`, date varying slowest, every
cumulative cell unset. -/
def gridSkeleton (df : List Row) : List Row :=
  let date_range := (List.range (dMax df - dMin df + 1)).map (fun k => dMin df + k)
  let cantons := uniqueList (df.map Row.canton)
  (date_range.map (fun d => cantons.map (fun c => Row.mk c d (fun _ => none)))).flatten

/-- The function `make_new_df(df, cumul_columns)`: build the dense grid.
The date axis is the full range `min_date .. max_date`; for every date (in
order) the grid holds one row per canton (in `unique()` order), initially
with every cell unset; then every original row's present cumulative values
are copied verbatim into the first grid slot with matching canton and date. -/
def make_new_df (df : List Row) (cumul_columns : List String) : List Row :=
  df.foldl (copyRow cumul_columns) (gridSkeleton df)

/-- Lexicographic order on character lists by code point (Python's string
order). -/
def charsLt : List Char → List Char → Bool
  | [], [] => false
  | [], _ :: _ => true
  | _ :: _, [] => false
  | a :: as, b :: bs =>
    if a.toNat < b.toNat then true
    else if b.toNat < a.toNat then false
    else charsLt as bs

/-- Strict lexicographic order on strings by code point. -/
def strLt (a b : String) : Bool := charsLt a.data b.data

/-- The sort key of `df.sort_values(by=['canton', 'date'])`: lexicographic
on (canton, date). -/
def rowLE (a b : Row) : Bool :=
  strLt a.canton b.canton || (decide (a.canton = b.canton) && decide (a.date ≤ b.date))

/-- Insertion into a list sorted by `rowLE`. -/
def insertRow (x : Row) : List Row → List Row
  | [] => [x]
  | y :: ys => if rowLE x y then x :: y :: ys else y :: insertRow x ys

/-- Sort of the table by (canton, date): `df.sort_values(by=['canton',
'date'], ignore_index=True)` (the source's quicksort is not stable, so the
order of rows with equal keys is unspecified; insertion sort by the same
key is one admissible order). -/
def sortRows (df : List Row) : List Row :=
  df.foldr insertRow []

/-- Integer truncation used by `astype(int)`: toward zero. -/
def intTrunc (q : ℚ) : ℤ :=
  if 0 ≤ q then ⌊q⌋ else ⌈q⌉

/-- Cast the cumulative columns of every row to integers
(`full_df[col] = full_df[col].astype(int)`), modelled as truncating each
present value. -/
def castIntCols (df : List Row) (columns : List String) : List Row :=
  df.map (fun r =>
    { r with cells := fun c =>
        if c ∈ columns then (r.cells c).map (fun q => (intTrunc q : ℚ)) else r.cells c })

/-- The pipeline `preprocess` up to, but not including, the final trailing
truncation: validator pass 1 with fill, duplicate detection (result
discarded by the source), sort, dense grid construction, validator pass 2
with fill, integer cast.  CSV ingestion and column renaming/dropping are
out of scope (ingestion), so the table and the cumulative column list are
parameters. -/
def preprocess_full (df : List Row) (cumul_columns : List String) : List Row :=
  let p1 := check_inconsistencies df cumul_columns true
  let df1 := p1.1
  let _canton_reports := no_same_day_reports df1
  let sorted_df := sortRows df1
  let full0 := make_new_df sorted_df cumul_columns
  let p2 := check_inconsistencies full0 cumul_columns true
  castIntCols p2.1 cumul_columns

/-- The function `preprocess`: the full pipeline, ending with
`full_df = full_df[:-27]` (drop the last 27 rows).  Only the grid is
returned; the inconsistency list and the duplicate-canton list are local
variables of the source and are discarded. -/
def preprocess (df : List Row) (cumul_columns : List String) : List Row :=
  let full_df := preprocess_full df cumul_columns
  full_df.take (full_df.length - 27)

/-- The constant `MAX_CANTONS` of the source. -/
def MAX_CANTONS : ℕ := 8

/-- The forced-aggregation rule of `draw_plot`:
`if len(cantons) >= MAX_CANTONS and not agg: agg = True; print(...)`.
Returns the effective aggregation flag and whether the notice was printed. -/
def draw_plot_agg (cantons : List String) (agg : Bool) : Bool × Bool :=
  if cantons.length ≥ MAX_CANTONS ∧ agg = false then (true, true) else (agg, false)

/-- Differencing as performed by `draw_plot`: `.diff().fillna(0)` — the
first delta is `0` (NaN filled), every later delta is the difference with
the previous entry.  No clamping of any kind is applied. -/
def diff_fillna0 : List ℚ → List ℚ
  | [] => []
  | x :: xs => 0 :: List.zipWith (fun a b => a - b) xs (x :: xs)

/-- Insert into an ascending list of dates. -/
def insertAsc (x : ℕ) : List ℕ → List ℕ
  | [] => [x]
  | y :: ys => if x ≤ y then x :: y :: ys else y :: insertAsc x ys

/-- Sort dates ascending (pandas `groupby` sorts group keys). -/
def sortAsc (l : List ℕ) : List ℕ := l.foldr insertAsc []

/-- The aggregated series of `draw_plot`:
`df[df['canton'].isin(cantons)].groupby(by='date').sum()[col]` — per date
(ascending), the sum of the column over the selected cantons' rows, with
missing cells contributing `0` (pandas `sum` skips NaN). -/
def groupby_date_sum (df : List Row) (cantons : List String) (col : String) : List ℚ :=
  let sub := df.filter (fun r => decide (r.canton ∈ cantons))
  (sortAsc (uniqueList (sub.map Row.date))).map (fun d =>
    ((sub.filter (fun r => decide (r.date = d))).map (fun r => (r.cells col).getD 0)).sum)

/-- The observable content of a table given its schema: canton, date, and
the configured cumulative cells of every row, in order. -/
def obsGrid (df : List Row) (columns : List String) : List (String × ℕ × List (Option ℚ)) :=
  df.map (fun r => (r.canton, r.date, columns.map r.cells))

/-- Pure restatement of one iteration of the inner loop of
`check_inconsistencies` on a single cell: given `has_value`, `max_value`
and the cell, return the new cell content, whether an inconsistency is
recorded, and the new `has_value` / `max_value`.  Used to characterise the
stateful fold `visitCell`. -/
def cellStep (fillna : Bool) (hv : Bool) (mv : ℚ) (cell : Option ℚ) :
    Option ℚ × Bool × Bool × ℚ :=
  if hv = false then
    match cell with
    | none => (if fillna then some mv else none, false, false, mv)
    | some v => (some v, false, true, v)
  else
    match cell with
    | none => (some mv, false, true, mv)
    | some v => if mv > v then (some v, true, true, mv) else (some v, false, true, v)

/-- Pure scan of one (canton, column) series: the list of
(new cell, inconsistency flag) per position, threading `cellStep`. -/
def seriesProc (fillna : Bool) : Bool → ℚ → List (Option ℚ) → List (Option ℚ × Bool)
  | _, _, [] => []
  | hv, mv, c :: cs =>
    let st := cellStep fillna hv mv c
    (st.1, st.2.1) :: seriesProc fillna st.2.2.1 st.2.2.2 cs

/-- The (column, canton) pairs visited by the nested loops of
`check_inconsistencies`, column varying slowest. -/
def colCantonPairs (columns : List String) (cantons : List String) :
    List (String × String) :=
  (columns.map (fun col => cantons.map (fun canton => (col, canton)))).flatten

/-- Fold of the validator's per-series scan over a list of
(column, canton) pairs; `check_inconsistencies` is this fold over
`colCantonPairs`. -/
def pairFold (fillna : Bool) (pairs : List (String × String))
    (acc : List Row × List (ℕ × String)) : List Row × List (ℕ × String) :=
  pairs.foldl (fun a p => visitSeries fillna p.1 p.2 a) acc

/-- The cells of the (column, canton) series `p` of a table, in scan
order. -/
def seriesCellsOf (df : List Row) (p : String × String) : List (Option ℚ) :=
  (cantonIndices df p.2).map (fun i => getCellAt df i p.1)

/-- Sample rows used by concrete witnesses: a single metric column "c". -/
def mkRow (c : String) (d : ℕ) (v : Option ℚ) : Row :=
  ⟨c, d, fun col => if col = "c" then v else none⟩

/-- The (canton, date) key of every row, in order. -/
def gridKeys (df : List Row) : List (String × ℕ) :=
  df.map (fun r => (r.canton, r.date))

/-- Sample input: a cumulative series with a downward correction. -/
def dfC1 : List Row := [mkRow "AA" 0 (some 10), mkRow "AA" 1 (some 8), mkRow "AA" 2 (some 8)]

/-- Sample input: a value followed by a mid-series gap. -/
def dfC2 : List Row := [mkRow "AA" 0 (some 5), mkRow "AA" 1 none]

/-- Sample input: two cantons over a 30-day range. -/
def dfC3 : List Row := [mkRow "A" 0 (some 5), mkRow "A" 29 (some 5), mkRow "B" 0 (some 3)]

/-- Sample input: one canton over a 30-day range. -/
def dfC3w : List Row := [mkRow "A" 0 (some 5), mkRow "A" 29 (some 5)]

/-- Sample input: two cantons, dates 1 and 3. -/
def dfC4w : List Row := [mkRow "A" 1 (some 2), mkRow "B" 3 (some 4)]

/-- Sample input: reports 10, 8, then a gap on day 2, then 9. -/
def dfC6 : List Row := [mkRow "AA" 0 (some 10), mkRow "AA" 1 (some 8), mkRow "AA" 3 (some 9)]

/-- Sample input: one canton with a duplicate same-day report. -/
def dfC7a : List Row := [mkRow "A" 0 (some 5), mkRow "A" 0 (some 5), mkRow "A" 29 (some 5)]

/-- Sample input: as dfC7a but without the duplicate report. -/
def dfC7b : List Row := [mkRow "A" 0 (some 5), mkRow "A" 29 (some 5)]

/-- Sample input: gaps, an anomaly and a second canton. -/
def dfC8w : List Row :=
  [mkRow "AA" 0 none, mkRow "AA" 1 (some 10), mkRow "AA" 2 (some 8),
   mkRow "AA" 3 none, mkRow "BB" 1 (some 3)]

/-- Eight canton codes. -/
def cantons8 : List String := ["AG", "AI", "AR", "BE", "BL", "BS", "FR", "GE"]

/-- Sample validator state: a value 8 present while the running maximum is 10. -/
def stateC5 : SeriesState := ⟨[mkRow "AA" 0 (some 8)], [], true, 10⟩

/-- Sample validator state: leading gap, no value seen yet. -/
def stateC2a : SeriesState := ⟨[mkRow "AA" 0 none], [], false, 0⟩

/-- Sample validator state: mid-series gap after a value has been seen. -/
def stateC2b : SeriesState := ⟨[mkRow "AA" 0 none], [], true, 7⟩

/-! ### Basic lemmas about cell access and update -/

theorem setCellAt_length (df : List Row) (i : ℕ) (col : String) (v : ℚ) :
    (setCellAt df i col v).length = df.length := by
  induction df generalizing i with
  | nil => rfl
  | cons r rs ih => cases i <;> simp [setCellAt, ih]

theorem setCellAt_map_canton (df : List Row) (i : ℕ) (col : String) (v : ℚ) :
    (setCellAt df i col v).map Row.canton = df.map Row.canton := by
  induction df generalizing i with
  | nil => rfl
  | cons r rs ih => cases i <;> simp [setCellAt, ih]

theorem setCellAt_map_date (df : List Row) (i : ℕ) (col : String) (v : ℚ) :
    (setCellAt df i col v).map Row.date = df.map Row.date := by
  induction df generalizing i with
  | nil => rfl
  | cons r rs ih => cases i <;> simp [setCellAt, ih]

theorem getCellAt_setCellAt_self (df : List Row) (i : ℕ) (col : String) (v : ℚ)
    (h : i < df.length) :
    getCellAt (setCellAt df i col v) i col = some v := by
  induction df generalizing i with
  | nil => simp at h
  | cons r rs ih =>
    cases i with
    | zero => simp [setCellAt, getCellAt, Function.update_same]
    | succ j => simpa [setCellAt, getCellAt] using ih j (by simpa using h)

theorem getCellAt_setCellAt_ne (df : List Row) (i j : ℕ) (col col' : String) (v : ℚ)
    (h : col' ≠ col ∨ j ≠ i) :
    getCellAt (setCellAt df i col v) j col' = getCellAt df j col' := by
  induction df generalizing i j with
  | nil => cases i <;> rfl
  | cons r rs ih =>
    cases i with
    | zero =>
      cases j with
      | zero =>
        rcases h with h | h
        · simp [setCellAt, getCellAt, Function.update_noteq h]
        · exact absurd rfl h
      | succ k => simp [setCellAt, getCellAt]
    | succ m =>
      cases j with
      | zero => simp [setCellAt, getCellAt]
      | succ k =>
        have h' : col' ≠ col ∨ k ≠ m := by
          rcases h with h | h
          · exact Or.inl h
          · exact Or.inr (fun hk => h (by simp [hk]))
        simpa [setCellAt, getCellAt] using ih m k h'

/-! ### Lemmas about uniqueList and cantonIndices -/

theorem mem_uniqueList {α : Type} [DecidableEq α] (l : List α) (x : α) :
    x ∈ uniqueList l ↔ x ∈ l := by
  induction l with
  | nil => simp [uniqueList]
  | cons y ys ih =>
    by_cases hxy : x = y
    · subst hxy; simp [uniqueList]
    · simp [uniqueList, List.mem_filter, hxy, ih]

theorem nodup_uniqueList {α : Type} [DecidableEq α] (l : List α) :
    (uniqueList l).Nodup := by
  induction l with
  | nil => exact List.nodup_nil
  | cons y ys ih =>
    refine List.Nodup.cons ?_ (List.Nodup.filter _ ih)
    intro hmem
    rcases List.mem_filter.mp hmem with ⟨_, hne⟩
    simp at hne

theorem mem_cantonIndices (df : List Row) (c : String) (i : ℕ) :
    i ∈ cantonIndices df c ↔ i < df.length ∧ (df.get? i).map Row.canton = some c := by
  simp [cantonIndices, List.mem_filter, List.mem_range]

theorem cantonIndices_nodup (df : List Row) (c : String) :
    (cantonIndices df c).Nodup :=
  List.Nodup.filter _ (List.nodup_range _)

theorem cantonIndices_lt (df : List Row) (c : String) (i : ℕ)
    (h : i ∈ cantonIndices df c) : i < df.length :=
  ((mem_cantonIndices df c i).mp h).1

theorem cantonIndices_congr (df df' : List Row) (c : String)
    (h : df.map Row.canton = df'.map Row.canton) :
    cantonIndices df c = cantonIndices df' c := by
  have hlen : df.length = df'.length := by
    have := congrArg List.length h
    simpa using this
  unfold cantonIndices
  rw [hlen]
  refine List.filter_congr ?_
  intro i _
  have hget : (df.get? i).map Row.canton = (df'.get? i).map Row.canton := by
    rw [List.get?_eq_getElem?, List.get?_eq_getElem?, ← List.getElem?_map,
      ← List.getElem?_map, h]
  rw [hget]

/-! ### Case equations for the cell visitor -/

theorem visitCell_gap_unseen_fill (col : String) (s : SeriesState) (idx : ℕ)
    (hhv : s.hasValue = false) (hcell : getCellAt s.df idx col = none) :
    visitCell true col s idx = { s with df := setCellAt s.df idx col s.maxValue } := by
  simp [visitCell, hhv, hcell]

theorem visitCell_gap_unseen_nofill (col : String) (s : SeriesState) (idx : ℕ)
    (hhv : s.hasValue = false) (hcell : getCellAt s.df idx col = none) :
    visitCell false col s idx = s := by
  simp [visitCell, hhv, hcell]

theorem visitCell_value_unseen (fillna : Bool) (col : String) (s : SeriesState) (idx : ℕ)
    (v : ℚ) (hhv : s.hasValue = false) (hcell : getCellAt s.df idx col = some v) :
    visitCell fillna col s idx = { s with hasValue := true, maxValue := v } := by
  simp [visitCell, hhv, hcell]

theorem visitCell_gap_seen (fillna : Bool) (col : String) (s : SeriesState) (idx : ℕ)
    (hhv : s.hasValue = true) (hcell : getCellAt s.df idx col = none) :
    visitCell fillna col s idx = { s with df := setCellAt s.df idx col s.maxValue } := by
  simp [visitCell, hhv, hcell]

theorem visitCell_value_seen_lt (fillna : Bool) (col : String) (s : SeriesState) (idx : ℕ)
    (v : ℚ) (hhv : s.hasValue = true) (hcell : getCellAt s.df idx col = some v)
    (hlt : v < s.maxValue) :
    visitCell fillna col s idx = { s with inc := s.inc ++ [(idx, col)] } := by
  simp [visitCell, hhv, hcell, hlt]

theorem visitCell_value_seen_ge (fillna : Bool) (col : String) (s : SeriesState) (idx : ℕ)
    (v : ℚ) (hhv : s.hasValue = true) (hcell : getCellAt s.df idx col = some v)
    (hge : ¬ v < s.maxValue) :
    visitCell fillna col s idx = { s with maxValue := v } := by
  simp [visitCell, hhv, hcell, hge]

/-! ### Preservation of table shape through the validator -/

theorem visitCell_shape (fillna : Bool) (col : String) (s : SeriesState) (idx : ℕ) :
    (visitCell fillna col s idx).df.length = s.df.length ∧
    (visitCell fillna col s idx).df.map Row.canton = s.df.map Row.canton ∧
    (visitCell fillna col s idx).df.map Row.date = s.df.map Row.date := by
  unfold visitCell
  split
  · cases hcell : getCellAt s.df idx col <;>
      simp [setCellAt_length, setCellAt_map_canton, setCellAt_map_date]
    split <;> simp [setCellAt_length, setCellAt_map_canton, setCellAt_map_date]
  · cases hcell : getCellAt s.df idx col <;>
      simp [setCellAt_length, setCellAt_map_canton, setCellAt_map_date]
    split <;> simp

theorem foldl_visitCell_shape (fillna : Bool) (col : String) (idxs : List ℕ)
    (s : SeriesState) :
    (idxs.foldl (visitCell fillna col) s).df.length = s.df.length ∧
    (idxs.foldl (visitCell fillna col) s).df.map Row.canton = s.df.map Row.canton ∧
    (idxs.foldl (visitCell fillna col) s).df.map Row.date = s.df.map Row.date := by
  induction idxs generalizing s with
  | nil => exact ⟨rfl, rfl, rfl⟩
  | cons i rest ih =>
    have h1 := visitCell_shape fillna col s i
    have h2 := ih (visitCell fillna col s i)
    simp only [List.foldl_cons]
    exact ⟨h2.1.trans h1.1, h2.2.1.trans h1.2.1, h2.2.2.trans h1.2.2⟩

theorem visitSeries_shape (fillna : Bool) (col canton : String)
    (acc : List Row × List (ℕ × String)) :
    (visitSeries fillna col canton acc).1.length = acc.1.length ∧
    (visitSeries fillna col canton acc).1.map Row.canton = acc.1.map Row.canton ∧
    (visitSeries fillna col canton acc).1.map Row.date = acc.1.map Row.date :=
  foldl_visitCell_shape fillna col (cantonIndices acc.1 canton) ⟨acc.1, acc.2, false, 0⟩

theorem foldl_visitSeries_shape (fillna : Bool) (col : String) (cantons : List String)
    (acc : List Row × List (ℕ × String)) :
    ((cantons.foldl (fun a canton => visitSeries fillna col canton a) acc).1.length
      = acc.1.length) ∧
    ((cantons.foldl (fun a canton => visitSeries fillna col canton a) acc).1.map Row.canton
      = acc.1.map Row.canton) ∧
    ((cantons.foldl (fun a canton => visitSeries fillna col canton a) acc).1.map Row.date
      = acc.1.map Row.date) := by
  induction cantons generalizing acc with
  | nil => exact ⟨rfl, rfl, rfl⟩
  | cons c rest ih =>
    have h1 := visitSeries_shape fillna col c acc
    have h2 := ih (visitSeries fillna col c acc)
    simp only [List.foldl_cons]
    exact ⟨h2.1.trans h1.1, h2.2.1.trans h1.2.1, h2.2.2.trans h1.2.2⟩

theorem check_inconsistencies_shape (df : List Row) (columns : List String) (fillna : Bool) :
    (check_inconsistencies df columns fillna).1.length = df.length ∧
    (check_inconsistencies df columns fillna).1.map Row.canton = df.map Row.canton ∧
    (check_inconsistencies df columns fillna).1.map Row.date = df.map Row.date := by
  unfold check_inconsistencies
  generalize uniqueList (df.map Row.canton) = cantons
  suffices h : ∀ (cols : List String) (acc : List Row × List (ℕ × String)),
      ((cols.foldl (fun a col =>
        cantons.foldl (fun a canton => visitSeries fillna col canton a) a) acc).1.length
        = acc.1.length) ∧
      ((cols.foldl (fun a col =>
        cantons.foldl (fun a canton => visitSeries fillna col canton a) a) acc).1.map Row.canton
        = acc.1.map Row.canton) ∧
      ((cols.foldl (fun a col =>
        cantons.foldl (fun a canton => visitSeries fillna col canton a) a) acc).1.map Row.date
        = acc.1.map Row.date) by
    exact h columns (df, [])
  intro cols
  induction cols with
  | nil => exact fun acc => ⟨rfl, rfl, rfl⟩
  | cons c rest ih =>
    intro acc
    have h1 := foldl_visitSeries_shape fillna c cantons acc
    have h2 := ih (cantons.foldl (fun a canton => visitSeries fillna c canton a) acc)
    simp only [List.foldl_cons]
    exact ⟨h2.1.trans h1.1, h2.2.1.trans h1.2.1, h2.2.2.trans h1.2.2⟩

/-! ### Claim C1 — differencing -/

/-- C1, counterexample: the Incremental Differencer (`.diff().fillna(0)`)
does not clamp negative deltas.  On the table `dfC1`, whose aggregated
cumulative series is `[10, 8, 8]` (a downward correction between days 0
and 1), the differenced output is `[0, -2, 0]`: the delta at position 1 is
`-2 < 0`, refuting "every delta in the output is non-negative ...
negative differences are clamped to zero". -/
theorem C1_counterexample :
    groupby_date_sum dfC1 ["AA"] "c" = [10, 8, 8] ∧
    diff_fillna0 (groupby_date_sum dfC1 ["AA"] "c") = [0, -2, 0] ∧
    ¬ (0 : ℚ) ≤ -2 := by
  have h : groupby_date_sum dfC1 ["AA"] "c" = [10, 8, 8] := by
    simp [groupby_date_sum, dfC1, mkRow, uniqueList, sortAsc, insertAsc]
  refine ⟨h, ?_, by norm_num⟩
  rw [h]
  norm_num [diff_fillna0]

/-- C1, amended: the Differencer output has the length of its input,
`delta[0] = 0`, and `delta[i] = cumulative[i] - cumulative[i-1]` for
`i ≥ 1`, with no clamping: a downward step in the cumulative series
produces a negative delta verbatim. -/
theorem C1_diff_characterization (l : List ℚ) :
    (diff_fillna0 l).length = l.length ∧
    (∀ x, l.get? 0 = some x → (diff_fillna0 l).get? 0 = some 0) ∧
    (∀ i a b, l.get? i = some a → l.get? (i + 1) = some b →
      (diff_fillna0 l).get? (i + 1) = some (b - a)) := by
  cases l with
  | nil =>
    refine ⟨rfl, ?_, ?_⟩
    · intro x hx; simp at hx
    · intro i a b ha; simp at ha
  | cons x xs =>
    refine ⟨?_, ?_, ?_⟩
    · simp [diff_fillna0, List.length_zipWith]
    · intro y _; rfl
    · intro i a b ha hb
      have ha' : (x :: xs).get? i = some a := ha
      have hb' : xs.get? i = some b := by simpa using hb
      show (List.zipWith (fun a b => a - b) xs (x :: xs)).get? i = some (b - a)
      rw [List.get?_zipWith']
      simp only [List.get?_eq_getElem?] at ha' hb'
      simp [ha', hb']

/-- C1, witness: the amended characterisation evaluated on the spec's own
scenario series `[0, 5, 5, 12]`. -/
theorem C1_witness :
    (diff_fillna0 [(0 : ℚ), 5, 5, 12]).get? 0 = some 0 ∧
    (diff_fillna0 [(0 : ℚ), 5, 5, 12]).get? 3 = some 7 := by
  constructor
  · exact (C1_diff_characterization [(0 : ℚ), 5, 5, 12]).2.1 0 rfl
  · have h := (C1_diff_characterization [(0 : ℚ), 5, 5, 12]).2.2 2 5 12 rfl rfl
    norm_num at h
    exact h

/-! ### Claim C2 — fills with fillna = false -/

/-- C2, counterexample: invoked with `fillna = false` on a series with a
value at index 0 and an absent cell at index 1, the validator still writes
the running maximum 5 into the absent mid-series cell (the write at source
line 108 is not guarded by `fillna`), and records no anomaly for it. -/
theorem C2_counterexample :
    getCellAt (check_inconsistencies dfC2 ["c"] false).1 1 "c" = some 5 ∧
    getCellAt dfC2 1 "c" = none ∧
    (check_inconsistencies dfC2 ["c"] false).2 = [] := by
  refine ⟨?_, ?_, ?_⟩ <;> decide

/-- C2, amended: with fill not requested the validator leaves absent cells
before the first seen value unchanged and never modifies present cells,
but it does write `running_max` into an absent cell once a value has been
seen — mid-series carry-forward happens regardless of the `fillna` flag;
only the leading-gap zero-fill is gated by it. -/
theorem C2_fill_flag_behavior (col : String) (s : SeriesState) (idx : ℕ) :
    (s.hasValue = false → getCellAt s.df idx col = none →
      visitCell false col s idx = s) ∧
    (∀ v, getCellAt s.df idx col = some v →
      (visitCell false col s idx).df = s.df) ∧
    (s.hasValue = true → getCellAt s.df idx col = none →
      visitCell false col s idx = { s with df := setCellAt s.df idx col s.maxValue }) := by
  refine ⟨?_, ?_, ?_⟩
  · intro hhv hcell
    exact visitCell_gap_unseen_nofill col s idx hhv hcell
  · intro v hcell
    cases hhv : s.hasValue with
    | false => rw [visitCell_value_unseen false col s idx v hhv hcell]
    | true =>
      by_cases hlt : v < s.maxValue
      · rw [visitCell_value_seen_lt false col s idx v hhv hcell hlt]
      · rw [visitCell_value_seen_ge false col s idx v hhv hcell hlt]
  · intro hhv hcell
    exact visitCell_gap_seen false col s idx hhv hcell

/-- C2, witness: the three behaviours at concrete states — a leading gap is
left alone, a present value is left alone, a mid-series gap is written even
though `fillna = false`. -/
theorem C2_witness :
    visitCell false "c" stateC2a 0 = stateC2a ∧
    (visitCell false "c" stateC5 0).df = stateC5.df ∧
    visitCell false "c" stateC2b 0
      = { stateC2b with df := setCellAt stateC2b.df 0 "c" stateC2b.maxValue } :=
  ⟨(C2_fill_flag_behavior "c" stateC2a 0).1 (by decide) (by decide),
   (C2_fill_flag_behavior "c" stateC5 0).2.1 8 (by decide),
   (C2_fill_flag_behavior "c" stateC2b 0).2.2 (by decide) (by decide)⟩

/-! ### Claim C5 — anomaly handling -/

/-- C5: when a present cell value is strictly below the running maximum,
the validator appends exactly the record `(index, column)`, the table (and
hence the cell) is unchanged, the running maximum is not lowered, and the
scan never halts — the returned table always retains every row of the
input, whatever the anomaly count. -/
theorem C5_anomaly_handling (fillna : Bool) (col : String) (s : SeriesState) (idx : ℕ)
    (v : ℚ) (hhv : s.hasValue = true) (hcell : getCellAt s.df idx col = some v)
    (hlt : v < s.maxValue) :
    visitCell fillna col s idx = { s with inc := s.inc ++ [(idx, col)] } ∧
    (visitCell fillna col s idx).df = s.df ∧
    (visitCell fillna col s idx).maxValue = s.maxValue ∧
    ∀ (df : List Row) (cols : List String) (fb : Bool),
      (check_inconsistencies df cols fb).1.length = df.length := by
  have h := visitCell_value_seen_lt fillna col s idx v hhv hcell hlt
  refine ⟨h, by rw [h], by rw [h], ?_⟩
  intro df cols fb
  exact (check_inconsistencies_shape df cols fb).1

/-- C5, witness: at a state with running maximum 10 and present value 8,
the visitor appends `(0, "c")` and changes nothing else. -/
theorem C5_witness :
    visitCell true "c" stateC5 0 = { stateC5 with inc := [(0, "c")] } ∧
    (check_inconsistencies dfC2 ["c"] false).1.length = dfC2.length := by
  have h := C5_anomaly_handling true "c" stateC5 0 8 (by decide) (by decide) (by decide)
  exact ⟨h.1, h.2.2.2 dfC2 ["c"] false⟩

/-! ### Claim C6 — carry-forward fills use the running maximum -/

/-- C6, code behaviour at the failing input: for the series
10 (day 0), 8 (day 1), no report (day 2), 9 (day 3), the dense grid stores
8 at day 1, and the fill pass writes 10 — the running maximum — into the
day-2 gap, not the value 8 of the last report before the gap.  This
contradicts the claim (and the source's own docstrings, which say "no
values means no change from the previous one"). -/
theorem C6_code_behavior :
    getCellAt (make_new_df dfC6 ["c"]) 1 "c" = some 8 ∧
    getCellAt (make_new_df dfC6 ["c"]) 2 "c" = none ∧
    getCellAt (check_inconsistencies (make_new_df dfC6 ["c"]) ["c"] true).1 2 "c"
      = some 10 := by
  refine ⟨?_, ?_, ?_⟩ <;> decide

/-! ### Claim C7 — what the pipeline returns -/

/-- C7, counterexample: two inputs that differ in their duplicate-report
lists (`["A"]` versus `[]`) produce pipeline outputs with identical
observable content — `preprocess` returns only the grid, so the
InconsistencyRecord list and the duplicate-group list are not part of the
returned value, refuting "always returns ... alongside the output grid". -/
theorem C7_counterexample :
    no_same_day_reports dfC7a = ["A"] ∧
    no_same_day_reports dfC7b = [] ∧
    obsGrid (preprocess dfC7a ["c"]) ["c"] = obsGrid (preprocess dfC7b ["c"]) ["c"] := by
  refine ⟨?_, ?_, ?_⟩ <;> decide

/-- C7, amended: the Duplicate-Report Detector itself does return the full
list of offending groups to its caller — a canton is in its output exactly
when it occurs in the table and its date axis has a repeat — but the
pipeline `preprocess` discards both this list and the validator's anomaly
list, returning only the grid; the printed counts are the only
pipeline-level surface of these diagnostics. -/
theorem C7_detector_full_list (df : List Row) (c : String) :
    c ∈ no_same_day_reports df ↔
      c ∈ df.map Row.canton ∧
      ¬ ((df.filter (fun r => decide (r.canton = c))).map Row.date).Nodup := by
  simp [no_same_day_reports, List.mem_filter, mem_uniqueList]

/-! ### Claim C9 — forced aggregation threshold -/

/-- C9, counterexample: with exactly `MAX_CANTONS = 8` cantons — a count
that does not exceed the limit — and `agg = false`, the engine still
forces aggregation and prints the notice (the source tests
`len(cantons) >= MAX_CANTONS`, not `>`), refuting "for group counts not
exceeding the limit, the caller's aggregation choice is respected". -/
theorem C9_counterexample :
    cantons8.length = MAX_CANTONS ∧ draw_plot_agg cantons8 false = (true, true) := by
  constructor <;> decide

/-- C9, amended: aggregation is forced (with a notice) exactly when
per-group plotting is requested for `MAX_CANTONS = 8` or more cantons; for
strictly fewer cantons, or when aggregation was already requested, the
caller's flag is respected and no notice is printed. -/
theorem C9_forced_aggregation (cantons : List String) (agg : Bool) :
    (cantons.length ≥ MAX_CANTONS ∧ agg = false →
      draw_plot_agg cantons agg = (true, true)) ∧
    (cantons.length < MAX_CANTONS ∨ agg = true →
      draw_plot_agg cantons agg = (agg, false)) := by
  constructor
  · intro h
    simp [draw_plot_agg, h.1, h.2]
  · intro h
    have hneg : ¬ (cantons.length ≥ MAX_CANTONS ∧ agg = false) := by
      rcases h with h | h
      · intro hc; omega
      · intro hc; rw [h] at hc; exact Bool.noConfusion hc.2
    simp [draw_plot_agg, hneg]

/-- C9, witness: forced at eight cantons, respected at one. -/
theorem C9_witness :
    draw_plot_agg cantons8 false = (true, true) ∧
    draw_plot_agg ["FR"] false = (false, false) :=
  ⟨(C9_forced_aggregation cantons8 false).1 ⟨by decide, rfl⟩,
   (C9_forced_aggregation ["FR"] false).2 (Or.inl (by decide))⟩

/-! ### Shape of the dense grid -/

theorem gridKeys_setCellAt (g : List Row) (i : ℕ) (col : String) (v : ℚ) :
    gridKeys (setCellAt g i col v) = gridKeys g := by
  induction g generalizing i with
  | nil => rfl
  | cons r rs ih =>
    cases i with
    | zero => simp [setCellAt, gridKeys]
    | succ j =>
      simp only [setCellAt, gridKeys, List.map_cons]
      simpa [gridKeys] using ih j

theorem gridKeys_copyRowCells (cols : List String) (row : Row) (i : ℕ) (g : List Row) :
    gridKeys (copyRowCells cols row i g) = gridKeys g := by
  induction cols generalizing g with
  | nil => rfl
  | cons c cs ih =>
    simp only [copyRowCells, List.foldl_cons] at *
    rw [ih]
    cases hc : row.cells c with
    | none => simp [hc]
    | some v => simp [hc, gridKeys_setCellAt]

theorem gridKeys_copyRow (cols : List String) (grid : List Row) (row : Row) :
    gridKeys (copyRow cols grid row) = gridKeys grid := by
  unfold copyRow
  cases h : grid.findIdx? (fun r => decide (r.canton = row.canton ∧ r.date = row.date)) with
  | none => rfl
  | some i => exact gridKeys_copyRowCells cols row i grid

theorem gridKeys_make_new_df (df : List Row) (cols : List String) :
    gridKeys (make_new_df df cols) = gridKeys (gridSkeleton df) := by
  unfold make_new_df
  suffices h : ∀ (rows base : List Row),
      gridKeys (rows.foldl (copyRow cols) base) = gridKeys base from h df (gridSkeleton df)
  intro rows
  induction rows with
  | nil => intro base; rfl
  | cons r rs ih =>
    intro base
    simp only [List.foldl_cons]
    rw [ih, gridKeys_copyRow]

theorem foldl_min_le (ds : List ℕ) (d : ℕ) : ds.foldl min d ≤ d := by
  induction ds generalizing d with
  | nil => exact le_refl d
  | cons x xs ih =>
    simp only [List.foldl_cons]
    exact le_trans (ih (min d x)) (min_le_left d x)

theorem le_foldl_max (ds : List ℕ) (d : ℕ) : d ≤ ds.foldl max d := by
  induction ds generalizing d with
  | nil => exact le_refl d
  | cons x xs ih =>
    simp only [List.foldl_cons]
    exact le_trans (le_max_left d x) (ih (max d x))

theorem foldl_min_le_mem (ds : List ℕ) (d x : ℕ) (hx : x ∈ ds) : ds.foldl min d ≤ x := by
  induction ds generalizing d with
  | nil => simp at hx
  | cons y ys ih =>
    simp only [List.foldl_cons]
    rcases List.mem_cons.mp hx with rfl | hx'
    · exact le_trans (foldl_min_le ys (min d x)) (min_le_right d x)
    · exact ih (min d y) hx'

theorem le_foldl_max_mem (ds : List ℕ) (d x : ℕ) (hx : x ∈ ds) : x ≤ ds.foldl max d := by
  induction ds generalizing d with
  | nil => simp at hx
  | cons y ys ih =>
    simp only [List.foldl_cons]
    rcases List.mem_cons.mp hx with rfl | hx'
    · exact le_trans (le_max_right d x) (le_foldl_max ys (max d x))
    · exact ih (max d y) hx'

theorem dMin_le_dMax (df : List Row) : dMin df ≤ dMax df := by
  unfold dMin dMax
  cases h : df.map Row.date with
  | nil => exact le_refl 0
  | cons d ds => exact le_trans (foldl_min_le ds d) (le_foldl_max ds d)

theorem dMin_le_of_mem (df : List Row) (d : ℕ) (hd : d ∈ df.map Row.date) :
    dMin df ≤ d := by
  unfold dMin
  cases h : df.map Row.date with
  | nil => rw [h] at hd; simp at hd
  | cons x xs =>
    rw [h] at hd
    rcases List.mem_cons.mp hd with rfl | hd'
    · exact foldl_min_le xs d
    · exact foldl_min_le_mem xs x d hd'

theorem le_dMax_of_mem (df : List Row) (d : ℕ) (hd : d ∈ df.map Row.date) :
    d ≤ dMax df := by
  unfold dMax
  cases h : df.map Row.date with
  | nil => rw [h] at hd; simp at hd
  | cons x xs =>
    rw [h] at hd
    rcases List.mem_cons.mp hd with rfl | hd'
    · exact le_foldl_max xs d
    · exact le_foldl_max_mem xs x d hd'

theorem mem_dateRange (df : List Row) (d : ℕ) :
    d ∈ (List.range (dMax df - dMin df + 1)).map (fun k => dMin df + k) ↔
      dMin df ≤ d ∧ d ≤ dMax df := by
  have h := dMin_le_dMax df
  simp only [List.mem_map, List.mem_range]
  constructor
  · rintro ⟨k, hk, rfl⟩
    omega
  · rintro ⟨h1, h2⟩
    exact ⟨d - dMin df, by omega, by omega⟩

theorem nodup_cross_pairs {α β : Type} (ds : List α) (cs : List β)
    (hd : ds.Nodup) (hc : cs.Nodup) :
    ((ds.map (fun d => cs.map (fun c => (c, d)))).flatten).Nodup := by
  induction ds with
  | nil => simp
  | cons d rest ih =>
    simp only [List.map_cons, List.flatten_cons]
    rw [List.nodup_append]
    refine ⟨?_, ih (List.Nodup.of_cons hd), ?_⟩
    · exact hc.map (fun x y hxy => by simpa using congrArg Prod.fst hxy)
    · intro x hx hx'
      rcases List.mem_map.mp hx with ⟨c, _, rfl⟩
      rcases List.mem_flatten.mp hx' with ⟨l, hl, hxl⟩
      rcases List.mem_map.mp hl with ⟨d', hd', rfl⟩
      rcases List.mem_map.mp hxl with ⟨c', _, hcd⟩
      have : d = d' := by simpa using congrArg Prod.snd hcd.symm
      subst this
      exact (List.nodup_cons.mp hd).1 hd'

theorem mem_cross_pairs {α β : Type} (ds : List α) (cs : List β) (c : β) (d : α) :
    (c, d) ∈ ((ds.map (fun d => cs.map (fun c => (c, d)))).flatten) ↔
      d ∈ ds ∧ c ∈ cs := by
  simp only [List.mem_flatten, List.mem_map]
  constructor
  · rintro ⟨l, ⟨d', hd', rfl⟩, hcl⟩
    rcases List.mem_map.mp hcl with ⟨c', hc', hcd⟩
    have h1 : c' = c := by simpa using congrArg Prod.fst hcd
    have h2 : d' = d := by simpa using congrArg Prod.snd hcd
    subst h1; subst h2
    exact ⟨hd', hc'⟩
  · rintro ⟨hd', hc'⟩
    exact ⟨cs.map (fun c => (c, d)), ⟨d, hd', rfl⟩, List.mem_map.mpr ⟨c, hc', rfl⟩⟩

theorem gridKeys_gridSkeleton (df : List Row) :
    gridKeys (gridSkeleton df)
      = (((List.range (dMax df - dMin df + 1)).map (fun k => dMin df + k)).map
          (fun d => (uniqueList (df.map Row.canton)).map (fun c => (c, d)))).flatten := by
  unfold gridSkeleton gridKeys
  rw [List.map_flatten, List.map_map, List.map_map, List.map_map]
  refine congrArg List.flatten (List.map_congr_left ?_)
  intro k _
  simp [Function.comp, List.map_map]

theorem length_flatten_const {α β : Type} (l : List α) (f : α → List β) (k : ℕ)
    (h : ∀ a ∈ l, (f a).length = k) : ((l.map f).flatten).length = l.length * k := by
  induction l with
  | nil => simp
  | cons a rest ih =>
    simp only [List.map_cons, List.flatten_cons, List.length_append, List.length_cons]
    rw [h a (List.mem_cons_self _ _), ih (fun b hb => h b (List.mem_cons_of_mem a hb))]
    ring

theorem length_gridSkeleton (df : List Row) :
    (gridSkeleton df).length
      = (uniqueList (df.map Row.canton)).length * (dMax df - dMin df + 1) := by
  unfold gridSkeleton
  rw [length_flatten_const _ _ (uniqueList (df.map Row.canton)).length
    (fun d _ => List.length_map _ _)]
  simp [Nat.mul_comm]

/-! ### Claim C4 — density of the dense grid -/

/-- C4: the dense grid built by `make_new_df` has exactly
(number of distinct cantons) × (number of calendar days from the global
minimum date to the global maximum date, inclusive) rows; its (canton,
date) keys have no duplicates; and a key (c, d) occurs exactly when c is a
canton of the input table and d lies in the global date range — the range
is global across the whole table, not per-group. -/
theorem C4_density (df : List Row) (cumul_columns : List String) :
    (make_new_df df cumul_columns).length
      = (uniqueList (df.map Row.canton)).length * (dMax df - dMin df + 1) ∧
    (gridKeys (make_new_df df cumul_columns)).Nodup ∧
    (∀ c d, (c, d) ∈ gridKeys (make_new_df df cumul_columns) ↔
      c ∈ df.map Row.canton ∧ dMin df ≤ d ∧ d ≤ dMax df) := by
  have hkeys := gridKeys_make_new_df df cumul_columns
  have hlen : (make_new_df df cumul_columns).length = (gridSkeleton df).length := by
    have h1 : (gridKeys (make_new_df df cumul_columns)).length
        = (make_new_df df cumul_columns).length := List.length_map _ _
    have h2 : (gridKeys (gridSkeleton df)).length = (gridSkeleton df).length :=
      List.length_map _ _
    rw [← h1, hkeys, h2]
  refine ⟨?_, ?_, ?_⟩
  · rw [hlen, length_gridSkeleton]
  · rw [hkeys, gridKeys_gridSkeleton]
    refine nodup_cross_pairs _ _ ?_ (nodup_uniqueList _)
    exact List.Nodup.map (fun a b hab => by omega) (List.nodup_range _)
  · intro c d
    rw [hkeys, gridKeys_gridSkeleton, mem_cross_pairs, mem_dateRange,
      mem_uniqueList]
    constructor
    · rintro ⟨⟨h1, h2⟩, h3⟩; exact ⟨h3, h1, h2⟩
    · rintro ⟨h3, h1, h2⟩; exact ⟨⟨h1, h2⟩, h3⟩

/-! ### Permutation invariance of the grid dimensions -/

theorem length_make_new_df (df : List Row) (cols : List String) :
    (make_new_df df cols).length
      = (uniqueList (df.map Row.canton)).length * (dMax df - dMin df + 1) := by
  have hkeys := gridKeys_make_new_df df cols
  have h1 : (gridKeys (make_new_df df cols)).length = (make_new_df df cols).length :=
    List.length_map _ _
  have h2 : (gridKeys (gridSkeleton df)).length = (gridSkeleton df).length :=
    List.length_map _ _
  rw [← h1, hkeys, h2, length_gridSkeleton]

theorem insertRow_perm (x : Row) (l : List Row) : List.Perm (insertRow x l) (x :: l) := by
  induction l with
  | nil => exact List.Perm.refl _
  | cons y ys ih =>
    unfold insertRow
    by_cases h : rowLE x y = true
    · rw [if_pos h]
    · rw [if_neg h]
      exact (ih.cons y).trans (List.Perm.swap x y ys)

theorem sortRows_perm (df : List Row) : List.Perm (sortRows df) df := by
  unfold sortRows
  induction df with
  | nil => exact List.Perm.refl _
  | cons r rs ih =>
    simp only [List.foldr_cons]
    exact (insertRow_perm r _).trans (ih.cons r)

theorem uniqueList_length_perm {α : Type} [DecidableEq α] (l l' : List α)
    (h : List.Perm l l') :
    (uniqueList l).length = (uniqueList l').length := by
  have h1 : (uniqueList l).toFinset = (uniqueList l').toFinset := by
    ext x
    simp [List.mem_toFinset, mem_uniqueList, h.mem_iff]
  have h2 := List.toFinset_card_of_nodup (nodup_uniqueList l)
  have h3 := List.toFinset_card_of_nodup (nodup_uniqueList l')
  rw [← h2, ← h3, h1]

theorem foldl_min_mem (ds : List ℕ) (d : ℕ) : ds.foldl min d ∈ d :: ds := by
  induction ds generalizing d with
  | nil => exact List.mem_singleton.mpr rfl
  | cons x xs ih =>
    simp only [List.foldl_cons]
    rcases List.mem_cons.mp (ih (min d x)) with h | h
    · rcases min_choice d x with hm | hm
      · exact List.mem_cons.mpr (Or.inl (h.trans hm))
      · exact List.mem_cons.mpr (Or.inr (List.mem_cons.mpr (Or.inl (h.trans hm))))
    · exact List.mem_cons.mpr (Or.inr (List.mem_cons.mpr (Or.inr h)))

theorem foldl_max_mem (ds : List ℕ) (d : ℕ) : ds.foldl max d ∈ d :: ds := by
  induction ds generalizing d with
  | nil => exact List.mem_singleton.mpr rfl
  | cons x xs ih =>
    simp only [List.foldl_cons]
    rcases List.mem_cons.mp (ih (max d x)) with h | h
    · rcases max_choice d x with hm | hm
      · exact List.mem_cons.mpr (Or.inl (h.trans hm))
      · exact List.mem_cons.mpr (Or.inr (List.mem_cons.mpr (Or.inl (h.trans hm))))
    · exact List.mem_cons.mpr (Or.inr (List.mem_cons.mpr (Or.inr h)))

theorem dMin_mem (df : List Row) (h : df.map Row.date ≠ []) :
    dMin df ∈ df.map Row.date := by
  unfold dMin
  cases hd : df.map Row.date with
  | nil => exact absurd hd h
  | cons x xs => exact foldl_min_mem xs x

theorem dMax_mem (df : List Row) (h : df.map Row.date ≠ []) :
    dMax df ∈ df.map Row.date := by
  unfold dMax
  cases hd : df.map Row.date with
  | nil => exact absurd hd h
  | cons x xs => exact foldl_max_mem xs x

theorem dMin_eq_of_perm (df df' : List Row)
    (h : List.Perm (df.map Row.date) (df'.map Row.date)) :
    dMin df = dMin df' := by
  cases hd : df.map Row.date with
  | nil =>
    have hd' : df'.map Row.date = [] := ((hd ▸ h).symm).eq_nil
    unfold dMin
    rw [hd, hd']
  | cons x xs =>
    have hne : df.map Row.date ≠ [] := by rw [hd]; simp
    have hne' : df'.map Row.date ≠ [] := by
      intro h0
      rw [h0] at h
      rw [h.eq_nil] at hd
      simp at hd
    have hm : dMin df ∈ df'.map Row.date := h.mem_iff.mp (dMin_mem df hne)
    have hm' : dMin df' ∈ df.map Row.date := h.mem_iff.mpr (dMin_mem df' hne')
    exact le_antisymm (dMin_le_of_mem df _ hm') (dMin_le_of_mem df' _ hm)

theorem dMax_eq_of_perm (df df' : List Row)
    (h : List.Perm (df.map Row.date) (df'.map Row.date)) :
    dMax df = dMax df' := by
  cases hd : df.map Row.date with
  | nil =>
    have hd' : df'.map Row.date = [] := ((hd ▸ h).symm).eq_nil
    unfold dMax
    rw [hd, hd']
  | cons x xs =>
    have hne : df.map Row.date ≠ [] := by rw [hd]; simp
    have hne' : df'.map Row.date ≠ [] := by
      intro h0
      rw [h0] at h
      rw [h.eq_nil] at hd
      simp at hd
    have hm : dMax df ∈ df'.map Row.date := h.mem_iff.mp (dMax_mem df hne)
    have hm' : dMax df' ∈ df.map Row.date := h.mem_iff.mpr (dMax_mem df' hne')
    exact le_antisymm (le_dMax_of_mem df' _ hm) (le_dMax_of_mem df _ hm')

theorem length_preprocess_full (df : List Row) (cols : List String) :
    (preprocess_full df cols).length
      = (uniqueList (df.map Row.canton)).length * (dMax df - dMin df + 1) := by
  unfold preprocess_full
  simp only []
  set df1 := (check_inconsistencies df cols true).1 with hdf1
  have hshape := check_inconsistencies_shape df cols true
  have hperm : List.Perm (sortRows df1) df1 := sortRows_perm df1
  have hpc : List.Perm ((sortRows df1).map Row.canton) (df.map Row.canton) := by
    rw [← hshape.2.1]
    exact hperm.map Row.canton
  have hpd : List.Perm ((sortRows df1).map Row.date) (df.map Row.date) := by
    rw [← hshape.2.2]
    exact hperm.map Row.date
  have hmin : dMin (sortRows df1) = dMin df := dMin_eq_of_perm _ _ hpd
  have hmax : dMax (sortRows df1) = dMax df := dMax_eq_of_perm _ _ hpd
  have hcant : (uniqueList ((sortRows df1).map Row.canton)).length
      = (uniqueList (df.map Row.canton)).length := uniqueList_length_perm _ _ hpc
  have hgrid := length_make_new_df (sortRows df1) cols
  have hpass2 := (check_inconsistencies_shape (make_new_df (sortRows df1) cols) cols true).1
  have hcast : ∀ (g : List Row), (castIntCols g cols).length = g.length := by
    intro g
    unfold castIntCols
    exact List.length_map _ _
  rw [hcast, hpass2, hgrid, hmin, hmax, hcant]

/-! ### Claim C3 — trailing truncation -/

/-- C3, counterexample: on an input with two cantons spanning dates 0..29,
the full grid has 60 rows and the truncation retains 33 of them, including
a row at date 16 — a date inside the final 27 calendar days of the range
(16 > 29 - 27) that the claim requires to be dropped.  The truncation
removes the last 27 rows, not the last 27 calendar days. -/
theorem C3_counterexample :
    (preprocess_full dfC3 ["c"]).length = 60 ∧
    (preprocess dfC3 ["c"]).length = 33 ∧
    16 ∈ (preprocess dfC3 ["c"]).map Row.date ∧
    dMax dfC3 - 27 < 16 := by
  refine ⟨?_, ?_, ?_, ?_⟩ <;> decide

/-- C3, amended: after grid construction, the caller-side truncation keeps
a prefix of the dense grid and drops exactly its last 27 rows (27 grid
slots in date-major order) — which equals 27 calendar days only when there
is a single group: the full grid has |groups| × |days| rows and the
returned grid has |groups| × |days| - 27 rows. -/
theorem C3_truncation (df : List Row) (cols : List String) :
    (preprocess_full df cols).length
      = (uniqueList (df.map Row.canton)).length * (dMax df - dMin df + 1) ∧
    (preprocess df cols).length
      = (uniqueList (df.map Row.canton)).length * (dMax df - dMin df + 1) - 27 ∧
    preprocess df cols <+: preprocess_full df cols := by
  have hfull := length_preprocess_full df cols
  refine ⟨hfull, ?_, ?_⟩
  · show ((preprocess_full df cols).take ((preprocess_full df cols).length - 27)).length
      = _
    rw [List.length_take, hfull]
    omega
  · exact List.take_prefix _ _

/-! ### Cell-level frame properties of the validator -/

theorem lt_of_getCellAt_isSome (df : List Row) (j : ℕ) (col : String)
    (h : (getCellAt df j col).isSome) : j < df.length := by
  by_contra hle
  push_neg at hle
  have hnone : df.get? j = none := List.get?_eq_none.mpr hle
  unfold getCellAt at h
  rw [hnone] at h
  simp at h

theorem visitCell_df_cases (fillna : Bool) (col : String) (s : SeriesState) (idx : ℕ) :
    (visitCell fillna col s idx).df = s.df ∨
    (visitCell fillna col s idx).df = setCellAt s.df idx col s.maxValue := by
  cases hhv : s.hasValue with
  | false =>
    cases hcell : getCellAt s.df idx col with
    | none =>
      cases fillna with
      | false => left; rw [visitCell_gap_unseen_nofill col s idx hhv hcell]
      | true => right; rw [visitCell_gap_unseen_fill col s idx hhv hcell]
    | some v => left; rw [visitCell_value_unseen fillna col s idx v hhv hcell]
  | true =>
    cases hcell : getCellAt s.df idx col with
    | none => right; rw [visitCell_gap_seen fillna col s idx hhv hcell]
    | some v =>
      by_cases hlt : v < s.maxValue
      · left; rw [visitCell_value_seen_lt fillna col s idx v hhv hcell hlt]
      · left; rw [visitCell_value_seen_ge fillna col s idx v hhv hcell hlt]

theorem visitCell_frame (fillna : Bool) (col : String) (s : SeriesState) (idx : ℕ)
    (j : ℕ) (col' : String) (h : col' ≠ col ∨ j ≠ idx) :
    getCellAt (visitCell fillna col s idx).df j col' = getCellAt s.df j col' := by
  rcases visitCell_df_cases fillna col s idx with hdf | hdf
  · rw [hdf]
  · rw [hdf]
    exact getCellAt_setCellAt_ne s.df idx j col col' s.maxValue h

theorem visitCell_some_mono (fillna : Bool) (col : String) (s : SeriesState) (idx : ℕ)
    (j : ℕ) (col' : String) (h : (getCellAt s.df j col').isSome) :
    (getCellAt (visitCell fillna col s idx).df j col').isSome := by
  by_cases hcq : col' = col
  · by_cases hj : j = idx
    · rw [hcq] at h ⊢
      rw [hj] at h ⊢
      have hlt := lt_of_getCellAt_isSome s.df idx col h
      rcases visitCell_df_cases fillna col s idx with hdf | hdf
      · rw [hdf]; exact h
      · rw [hdf]
        rw [getCellAt_setCellAt_self s.df idx col s.maxValue hlt]
        rfl
    · rw [visitCell_frame fillna col s idx j col' (Or.inr hj)]
      exact h
  · rw [visitCell_frame fillna col s idx j col' (Or.inl hcq)]
    exact h

theorem visitCell_fill_some (col : String) (s : SeriesState) (idx : ℕ)
    (hlt : idx < s.df.length) :
    (getCellAt (visitCell true col s idx).df idx col).isSome := by
  cases hcell : getCellAt s.df idx col with
  | none =>
    cases hhv : s.hasValue with
    | false =>
      rw [visitCell_gap_unseen_fill col s idx hhv hcell]
      show (getCellAt (setCellAt s.df idx col s.maxValue) idx col).isSome
      rw [getCellAt_setCellAt_self s.df idx col s.maxValue hlt]
      rfl
    | true =>
      rw [visitCell_gap_seen true col s idx hhv hcell]
      show (getCellAt (setCellAt s.df idx col s.maxValue) idx col).isSome
      rw [getCellAt_setCellAt_self s.df idx col s.maxValue hlt]
      rfl
  | some v =>
    rcases visitCell_df_cases true col s idx with hdf | hdf
    · rw [hdf, hcell]; rfl
    · rw [hdf]
      rw [getCellAt_setCellAt_self s.df idx col s.maxValue hlt]
      rfl

theorem foldl_visitCell_frame (fillna : Bool) (col : String) (idxs : List ℕ)
    (s : SeriesState) (j : ℕ) (col' : String) (h : col' ≠ col ∨ j ∉ idxs) :
    getCellAt (idxs.foldl (visitCell fillna col) s).df j col' = getCellAt s.df j col' := by
  induction idxs generalizing s with
  | nil => rfl
  | cons i rest ih =>
    have hsplit : col' ≠ col ∨ (j ≠ i ∧ j ∉ rest) := by
      rcases h with h | h
      · exact Or.inl h
      · exact Or.inr ⟨fun he => h (he ▸ List.mem_cons_self i rest),
          fun hm => h (List.mem_cons_of_mem i hm)⟩
    simp only [List.foldl_cons]
    have h1 : col' ≠ col ∨ j ∉ rest := by
      rcases hsplit with h' | h'
      · exact Or.inl h'
      · exact Or.inr h'.2
    have h2 : col' ≠ col ∨ j ≠ i := by
      rcases hsplit with h' | h'
      · exact Or.inl h'
      · exact Or.inr h'.1
    rw [ih (visitCell fillna col s i) h1]
    exact visitCell_frame fillna col s i j col' h2

theorem foldl_visitCell_some_mono (fillna : Bool) (col : String) (idxs : List ℕ)
    (s : SeriesState) (j : ℕ) (col' : String) (h : (getCellAt s.df j col').isSome) :
    (getCellAt (idxs.foldl (visitCell fillna col) s).df j col').isSome := by
  induction idxs generalizing s with
  | nil => exact h
  | cons i rest ih =>
    simp only [List.foldl_cons]
    exact ih (visitCell fillna col s i) (visitCell_some_mono fillna col s i j col' h)

theorem foldl_visitCell_some_at (col : String) (idxs : List ℕ) (s : SeriesState)
    (hval : ∀ i ∈ idxs, i < s.df.length) (j : ℕ) (hj : j ∈ idxs) :
    (getCellAt (idxs.foldl (visitCell true col) s).df j col).isSome := by
  induction idxs generalizing s with
  | nil => simp at hj
  | cons i rest ih =>
    simp only [List.foldl_cons]
    rcases List.mem_cons.mp hj with rfl | hj'
    · exact foldl_visitCell_some_mono true col rest (visitCell true col s j) j col
        (visitCell_fill_some col s j (hval j (List.mem_cons_self j rest)))
    · refine ih (visitCell true col s i) ?_ hj'
      intro i' hi'
      rw [(visitCell_shape true col s i).1]
      exact hval i' (List.mem_cons_of_mem i hi')

/-! ### Claim C10 — totality of the fill pass -/

theorem visitSeries_some_own (col canton : String) (acc : List Row × List (ℕ × String))
    (j : ℕ) (hc : ((acc.1.map Row.canton).get? j) = some canton) :
    (getCellAt (visitSeries true col canton acc).1 j col).isSome := by
  have hjlen : j < acc.1.length := by
    by_contra hle
    push_neg at hle
    have hnone : (acc.1.map Row.canton).get? j = none :=
      List.get?_eq_none.mpr (by simpa using hle)
    rw [hnone] at hc
    exact Option.noConfusion hc
  have hmem : j ∈ cantonIndices acc.1 canton := by
    rw [mem_cantonIndices]
    refine ⟨hjlen, ?_⟩
    rw [List.get?_eq_getElem?, List.getElem?_map] at hc
    rw [List.get?_eq_getElem?]
    exact hc
  show (getCellAt ((cantonIndices acc.1 canton).foldl (visitCell true col)
    ⟨acc.1, acc.2, false, 0⟩).df j col).isSome
  exact foldl_visitCell_some_at col (cantonIndices acc.1 canton) ⟨acc.1, acc.2, false, 0⟩
    (fun i hi => cantonIndices_lt acc.1 canton i hi) j hmem

theorem visitSeries_some_mono (fillna : Bool) (col canton : String)
    (acc : List Row × List (ℕ × String)) (j : ℕ) (col' : String)
    (h : (getCellAt acc.1 j col').isSome) :
    (getCellAt (visitSeries fillna col canton acc).1 j col').isSome := by
  show (getCellAt ((cantonIndices acc.1 canton).foldl (visitCell fillna col)
    ⟨acc.1, acc.2, false, 0⟩).df j col').isSome
  exact foldl_visitCell_some_mono fillna col _ _ j col' h

theorem cantons_foldl_some_mono (fillna : Bool) (col : String) (cantons : List String)
    (acc : List Row × List (ℕ × String)) (j : ℕ) (col' : String)
    (h : (getCellAt acc.1 j col').isSome) :
    (getCellAt (cantons.foldl (fun a c => visitSeries fillna col c a) acc).1 j col').isSome := by
  induction cantons generalizing acc with
  | nil => exact h
  | cons c cs ih =>
    simp only [List.foldl_cons]
    exact ih (visitSeries fillna col c acc) (visitSeries_some_mono fillna col c acc j col' h)

theorem cantons_foldl_some (col : String) (cantons : List String)
    (acc : List Row × List (ℕ × String)) (j : ℕ) (canton : String)
    (hc : ((acc.1.map Row.canton).get? j) = some canton) (hmem : canton ∈ cantons) :
    (getCellAt (cantons.foldl (fun a c => visitSeries true col c a) acc).1 j col).isSome := by
  induction cantons generalizing acc with
  | nil => simp at hmem
  | cons c cs ih =>
    simp only [List.foldl_cons]
    rcases List.mem_cons.mp hmem with rfl | hmem'
    · exact cantons_foldl_some_mono true col cs (visitSeries true col canton acc) j col
        (visitSeries_some_own col canton acc j hc)
    · have hc' : (((visitSeries true col c acc).1.map Row.canton).get? j) = some canton := by
        rw [(visitSeries_shape true col c acc).2.1]
        exact hc
      exact ih (visitSeries true col c acc) hc' hmem'

theorem cols_foldl_some_mono (fillna : Bool) (cols : List String) (cantons : List String)
    (acc : List Row × List (ℕ × String)) (j : ℕ) (col' : String)
    (h : (getCellAt acc.1 j col').isSome) :
    (getCellAt (cols.foldl (fun a col =>
      cantons.foldl (fun a canton => visitSeries fillna col canton a) a) acc).1
      j col').isSome := by
  induction cols generalizing acc with
  | nil => exact h
  | cons c cs ih =>
    simp only [List.foldl_cons]
    exact ih _ (cantons_foldl_some_mono fillna c cantons acc j col' h)

theorem cols_foldl_some (cols : List String) (cantons : List String)
    (acc : List Row × List (ℕ × String)) (j : ℕ) (col : String) (canton : String)
    (hc : ((acc.1.map Row.canton).get? j) = some canton) (hcm : canton ∈ cantons)
    (hcol : col ∈ cols) :
    (getCellAt (cols.foldl (fun a col =>
      cantons.foldl (fun a canton => visitSeries true col canton a) a) acc).1
      j col).isSome := by
  induction cols generalizing acc with
  | nil => simp at hcol
  | cons c cs ih =>
    simp only [List.foldl_cons]
    rcases List.mem_cons.mp hcol with rfl | hcol'
    · exact cols_foldl_some_mono true cs cantons _ j col
        (cantons_foldl_some col cantons acc j canton hc hcm)
    · refine ih _ ?_ hcol'
      rw [(foldl_visitSeries_shape true c cantons acc).2.1]
      exact hc

/-- C10: after a validator pass with `fillna = true`, every cell of every
configured cumulative column of every row holds a numeric value — no NaN
remains in the columns the pass covers, so the subsequent cast of the
cumulative columns to integers (which is applied exactly to the rows the
pass has visited) never encounters a missing value. -/
theorem C10_fill_total (df : List Row) (cols : List String) (col : String) (j : ℕ)
    (hcol : col ∈ cols) (hj : j < df.length) :
    (getCellAt (check_inconsistencies df cols true).1 j col).isSome := by
  obtain ⟨r, hr⟩ : ∃ r, df.get? j = some r := by
    cases hget : df.get? j with
    | none => exact absurd (List.get?_eq_none.mp hget) (by omega)
    | some r => exact ⟨r, rfl⟩
  have hcanton : ((df.map Row.canton).get? j) = some r.canton := by
    rw [List.get?_eq_getElem?, List.getElem?_map, ← List.get?_eq_getElem?, hr]
    rfl
  have hcmem : r.canton ∈ uniqueList (df.map Row.canton) := by
    rw [mem_uniqueList]
    exact List.mem_map.mpr ⟨r, List.get?_mem hr, rfl⟩
  unfold check_inconsistencies
  exact cols_foldl_some cols (uniqueList (df.map Row.canton)) (df, []) j col
    r.canton hcanton hcmem hcol

/-- C10, witness: on the sample table with a NaN at row 1, the filled
result holds a numeric value there. -/
theorem C10_witness :
    (getCellAt (check_inconsistencies dfC2 ["c"] true).1 1 "c").isSome :=
  C10_fill_total dfC2 ["c"] "c" 1 (by decide) (by decide)

/-! ### Bridge between the stateful visitor and the pure cell step -/

theorem visitCell_vs_cellStep (fillna : Bool) (col : String) (s : SeriesState) (idx : ℕ)
    (hidx : idx < s.df.length) :
    getCellAt (visitCell fillna col s idx).df idx col
      = (cellStep fillna s.hasValue s.maxValue (getCellAt s.df idx col)).1 ∧
    (visitCell fillna col s idx).inc
      = s.inc ++ (if (cellStep fillna s.hasValue s.maxValue (getCellAt s.df idx col)).2.1
            = true then [(idx, col)] else []) ∧
    (visitCell fillna col s idx).hasValue
      = (cellStep fillna s.hasValue s.maxValue (getCellAt s.df idx col)).2.2.1 ∧
    (visitCell fillna col s idx).maxValue
      = (cellStep fillna s.hasValue s.maxValue (getCellAt s.df idx col)).2.2.2 := by
  cases hhv : s.hasValue with
  | false =>
    cases hcell : getCellAt s.df idx col with
    | none =>
      cases fillna with
      | false =>
        rw [visitCell_gap_unseen_nofill col s idx hhv hcell]
        simp [cellStep, hhv, hcell]
      | true =>
        rw [visitCell_gap_unseen_fill col s idx hhv hcell]
        refine ⟨?_, ?_, ?_, ?_⟩
        · show getCellAt (setCellAt s.df idx col s.maxValue) idx col = _
          rw [getCellAt_setCellAt_self s.df idx col s.maxValue hidx]
          simp [cellStep, hhv, hcell]
        · simp [cellStep, hhv, hcell]
        · simp [cellStep, hhv, hcell]
        · simp [cellStep, hhv, hcell]
    | some v =>
      rw [visitCell_value_unseen fillna col s idx v hhv hcell]
      simp [cellStep, hhv, hcell]
  | true =>
    cases hcell : getCellAt s.df idx col with
    | none =>
      rw [visitCell_gap_seen fillna col s idx hhv hcell]
      refine ⟨?_, ?_, ?_, ?_⟩
      · show getCellAt (setCellAt s.df idx col s.maxValue) idx col = _
        rw [getCellAt_setCellAt_self s.df idx col s.maxValue hidx]
        simp [cellStep, hhv, hcell]
      · simp [cellStep, hhv, hcell]
      · simp [cellStep, hhv, hcell]
      · simp [cellStep, hhv, hcell]
    | some v =>
      by_cases hlt : v < s.maxValue
      · rw [visitCell_value_seen_lt fillna col s idx v hhv hcell hlt]
        simp [cellStep, hhv, hcell, hlt]
      · rw [visitCell_value_seen_ge fillna col s idx v hhv hcell hlt]
        simp [cellStep, hhv, hcell, hlt]

theorem foldl_visitCell_master (fillna : Bool) (col : String) (idxs : List ℕ)
    (df : List Row) (inc : List (ℕ × String)) (hv : Bool) (mv : ℚ)
    (hnd : idxs.Nodup) (hvalid : ∀ i ∈ idxs, i < df.length) :
    (idxs.map (fun i =>
        getCellAt (idxs.foldl (visitCell fillna col) ⟨df, inc, hv, mv⟩).df i col)
      = (seriesProc fillna hv mv (idxs.map (fun i => getCellAt df i col))).map
          Prod.fst) ∧
    ((idxs.foldl (visitCell fillna col) ⟨df, inc, hv, mv⟩).inc
      = inc ++ (idxs.zip (seriesProc fillna hv mv
            (idxs.map (fun i => getCellAt df i col)))).filterMap
          (fun q => if q.2.2 = true then some (q.1, col) else none)) := by
  induction idxs generalizing df inc hv mv with
  | nil => exact ⟨rfl, by simp [seriesProc]⟩
  | cons i rest ih =>
    have hiv : i < df.length := hvalid i (List.mem_cons_self i rest)
    have hvc := visitCell_vs_cellStep fillna col ⟨df, inc, hv, mv⟩ i hiv
    dsimp only at hvc
    have hnotmem : i ∉ rest := (List.nodup_cons.mp hnd).1
    have hndrest : rest.Nodup := (List.nodup_cons.mp hnd).2
    have hlen1 : (visitCell fillna col ⟨df, inc, hv, mv⟩ i).df.length = df.length :=
      (visitCell_shape fillna col ⟨df, inc, hv, mv⟩ i).1
    have hvalid1 : ∀ j ∈ rest, j < (visitCell fillna col ⟨df, inc, hv, mv⟩ i).df.length :=
      fun j hj => hlen1 ▸ hvalid j (List.mem_cons_of_mem i hj)
    have hcells : rest.map
        (fun j => getCellAt (visitCell fillna col ⟨df, inc, hv, mv⟩ i).df j col)
        = rest.map (fun j => getCellAt df j col) :=
      List.map_congr_left (fun j hj =>
        visitCell_frame fillna col ⟨df, inc, hv, mv⟩ i j col
          (Or.inr (fun he => hnotmem (he ▸ hj))))
    obtain ⟨ih1, ih2⟩ := ih (visitCell fillna col ⟨df, inc, hv, mv⟩ i).df
      (visitCell fillna col ⟨df, inc, hv, mv⟩ i).inc
      (visitCell fillna col ⟨df, inc, hv, mv⟩ i).hasValue
      (visitCell fillna col ⟨df, inc, hv, mv⟩ i).maxValue hndrest hvalid1
    constructor
    · simp only [List.foldl_cons, List.map_cons, seriesProc, List.cons.injEq]
      constructor
      · rw [foldl_visitCell_frame fillna col rest
          (visitCell fillna col ⟨df, inc, hv, mv⟩ i) i col (Or.inr hnotmem)]
        exact hvc.1
      · rw [← hvc.2.2.1, ← hvc.2.2.2, ← hcells]
        exact ih1
    · simp only [List.foldl_cons, List.map_cons, seriesProc, List.zip_cons_cons]
      rw [← hvc.2.2.1, ← hvc.2.2.2, ← hcells, ih2, hvc.2.1]
      cases hflag : (cellStep fillna hv mv (getCellAt df i col)).2.1 with
      | false => simp [List.filterMap_cons]
      | true => simp [List.filterMap_cons, List.append_assoc]

theorem cellStep_fill_isSome (hv : Bool) (mv : ℚ) (c : Option ℚ) :
    (cellStep true hv mv c).1.isSome := by
  cases hv with
  | false =>
    cases c with
    | none => simp [cellStep]
    | some v => simp [cellStep]
  | true =>
    cases c with
    | none => simp [cellStep]
    | some v =>
      by_cases h : mv > v
      · simp [cellStep, h]
      · simp [cellStep, h]

theorem seriesProc_fill_isSome (hv : Bool) (mv : ℚ) (cells : List (Option ℚ)) :
    ∀ q ∈ seriesProc true hv mv cells, q.1.isSome := by
  induction cells generalizing hv mv with
  | nil => intro q hq; simp [seriesProc] at hq
  | cons c cs ih =>
    intro q hq
    simp only [seriesProc] at hq
    rcases List.mem_cons.mp hq with rfl | hq'
    · exact cellStep_fill_isSome hv mv c
    · exact ih _ _ q hq'

theorem visitCell_nowrite (fillna : Bool) (col : String) (s : SeriesState) (idx : ℕ)
    (h : (getCellAt s.df idx col).isSome) :
    (visitCell fillna col s idx).df = s.df := by
  cases hcell : getCellAt s.df idx col with
  | none => rw [hcell] at h; simp at h
  | some v =>
    cases hhv : s.hasValue with
    | false => rw [visitCell_value_unseen fillna col s idx v hhv hcell]
    | true =>
      by_cases hlt : v < s.maxValue
      · rw [visitCell_value_seen_lt fillna col s idx v hhv hcell hlt]
      · rw [visitCell_value_seen_ge fillna col s idx v hhv hcell hlt]

theorem foldl_visitCell_nowrite (fillna : Bool) (col : String) (idxs : List ℕ)
    (s : SeriesState) (h : ∀ i ∈ idxs, (getCellAt s.df i col).isSome) :
    (idxs.foldl (visitCell fillna col) s).df = s.df := by
  induction idxs generalizing s with
  | nil => rfl
  | cons i rest ih =>
    have h1 := visitCell_nowrite fillna col s i (h i (List.mem_cons_self i rest))
    simp only [List.foldl_cons]
    rw [ih (visitCell fillna col s i)
      (fun j hj => by rw [h1]; exact h j (List.mem_cons_of_mem i hj)), h1]

theorem visitCell_inc (fillna : Bool) (col : String) (df : List Row)
    (inc : List (ℕ × String)) (hv : Bool) (mv : ℚ) (idx : ℕ) :
    visitCell fillna col ⟨df, inc, hv, mv⟩ idx
      = ⟨(visitCell fillna col ⟨df, [], hv, mv⟩ idx).df,
         inc ++ (visitCell fillna col ⟨df, [], hv, mv⟩ idx).inc,
         (visitCell fillna col ⟨df, [], hv, mv⟩ idx).hasValue,
         (visitCell fillna col ⟨df, [], hv, mv⟩ idx).maxValue⟩ := by
  cases hhv : hv with
  | false =>
    cases hcell : getCellAt df idx col with
    | none =>
      cases fillna with
      | false =>
        rw [visitCell_gap_unseen_nofill col ⟨df, inc, false, mv⟩ idx rfl hcell,
          visitCell_gap_unseen_nofill col ⟨df, [], false, mv⟩ idx rfl hcell]
        simp
      | true =>
        rw [visitCell_gap_unseen_fill col ⟨df, inc, false, mv⟩ idx rfl hcell,
          visitCell_gap_unseen_fill col ⟨df, [], false, mv⟩ idx rfl hcell]
        simp
    | some v =>
      rw [visitCell_value_unseen fillna col ⟨df, inc, false, mv⟩ idx v rfl hcell,
        visitCell_value_unseen fillna col ⟨df, [], false, mv⟩ idx v rfl hcell]
      simp
  | true =>
    cases hcell : getCellAt df idx col with
    | none =>
      rw [visitCell_gap_seen fillna col ⟨df, inc, true, mv⟩ idx rfl hcell,
        visitCell_gap_seen fillna col ⟨df, [], true, mv⟩ idx rfl hcell]
      simp
    | some v =>
      by_cases hlt : v < mv
      · rw [visitCell_value_seen_lt fillna col ⟨df, inc, true, mv⟩ idx v rfl hcell hlt,
          visitCell_value_seen_lt fillna col ⟨df, [], true, mv⟩ idx v rfl hcell hlt]
        simp
      · rw [visitCell_value_seen_ge fillna col ⟨df, inc, true, mv⟩ idx v rfl hcell hlt,
          visitCell_value_seen_ge fillna col ⟨df, [], true, mv⟩ idx v rfl hcell hlt]
        simp

theorem foldl_visitCell_inc (fillna : Bool) (col : String) (idxs : List ℕ)
    (df : List Row) (inc : List (ℕ × String)) (hv : Bool) (mv : ℚ) :
    ((idxs.foldl (visitCell fillna col) ⟨df, inc, hv, mv⟩).df
      = (idxs.foldl (visitCell fillna col) ⟨df, [], hv, mv⟩).df) ∧
    ((idxs.foldl (visitCell fillna col) ⟨df, inc, hv, mv⟩).inc
      = inc ++ (idxs.foldl (visitCell fillna col) ⟨df, [], hv, mv⟩).inc) := by
  induction idxs generalizing df inc hv mv with
  | nil => exact ⟨rfl, by simp⟩
  | cons i rest ih =>
    simp only [List.foldl_cons]
    rw [visitCell_inc fillna col df inc hv mv i]
    have h0 : visitCell fillna col ⟨df, [], hv, mv⟩ i
        = ⟨(visitCell fillna col ⟨df, [], hv, mv⟩ i).df,
           (visitCell fillna col ⟨df, [], hv, mv⟩ i).inc,
           (visitCell fillna col ⟨df, [], hv, mv⟩ i).hasValue,
           (visitCell fillna col ⟨df, [], hv, mv⟩ i).maxValue⟩ := rfl
    obtain ⟨e1, e2⟩ := ih (visitCell fillna col ⟨df, [], hv, mv⟩ i).df
      (inc ++ (visitCell fillna col ⟨df, [], hv, mv⟩ i).inc)
      (visitCell fillna col ⟨df, [], hv, mv⟩ i).hasValue
      (visitCell fillna col ⟨df, [], hv, mv⟩ i).maxValue
    obtain ⟨f1, f2⟩ := ih (visitCell fillna col ⟨df, [], hv, mv⟩ i).df
      (visitCell fillna col ⟨df, [], hv, mv⟩ i).inc
      (visitCell fillna col ⟨df, [], hv, mv⟩ i).hasValue
      (visitCell fillna col ⟨df, [], hv, mv⟩ i).maxValue
    constructor
    · rw [e1]
      conv_rhs => rw [h0]
      rw [f1]
    · rw [e2]
      conv_rhs => rw [h0]
      rw [f2, List.append_assoc]

/-! ### Idempotence of the pure series scan (for non-negative data) -/

theorem seriesProc_idem (X : List (Option ℚ)) (hv1 hv2 : Bool) (mv1 : ℚ)
    (hnn : ∀ v : ℚ, some v ∈ X → 0 ≤ v) (hmv1 : 0 ≤ mv1)
    (hhv : hv1 = true → hv2 = true) (hmv0 : hv1 = false → mv1 = 0) :
    seriesProc true hv2 mv1 ((seriesProc true hv1 mv1 X).map Prod.fst)
      = seriesProc true hv1 mv1 X := by
  induction X generalizing hv1 hv2 mv1 with
  | nil => simp [seriesProc]
  | cons c cs ih =>
    have hnn' : ∀ v : ℚ, some v ∈ cs → 0 ≤ v :=
      fun v hvm => hnn v (List.mem_cons_of_mem c hvm)
    cases hhv1 : hv1 with
    | false =>
      have h0 : mv1 = 0 := hmv0 hhv1
      subst h0
      cases c with
      | none =>
        cases hhv2 : hv2 with
        | false =>
          simp [seriesProc, cellStep, lt_irrefl]
          exact ih false true 0 hnn' le_rfl (fun h => by simp at h) (fun _ => rfl)
        | true =>
          simp [seriesProc, cellStep, lt_irrefl]
          exact ih false true 0 hnn' le_rfl (fun h => by simp at h) (fun _ => rfl)
      | some v =>
        have hv0 : (0 : ℚ) ≤ v := hnn v (List.mem_cons_self _ _)
        cases hhv2 : hv2 with
        | false =>
          simp [seriesProc, cellStep, not_lt.mpr hv0]
          exact ih true true v hnn' hv0 (fun _ => rfl) (fun h => by simp at h)
        | true =>
          simp [seriesProc, cellStep, not_lt.mpr hv0]
          exact ih true true v hnn' hv0 (fun _ => rfl) (fun h => by simp at h)
    | true =>
      have h2 : hv2 = true := hhv hhv1
      subst h2
      cases c with
      | none =>
        simp [seriesProc, cellStep, lt_irrefl]
        exact ih true true mv1 hnn' hmv1 (fun _ => rfl) (fun h => by simp at h)
      | some v =>
        by_cases hgt : v < mv1
        · simp [seriesProc, cellStep, hgt]
          exact ih true true mv1 hnn' hmv1 (fun _ => rfl) (fun h => by simp at h)
        · have hle : (0 : ℚ) ≤ v := hnn v (List.mem_cons_self _ _)
          simp [seriesProc, cellStep, hgt]
          exact ih true true v hnn' hle (fun _ => rfl) (fun h => by simp at h)

/-! ### Series-level consequences -/

theorem cantonIndices_disjoint (df : List Row) (c c' : String) (hne : c ≠ c')
    (j : ℕ) (hj : j ∈ cantonIndices df c) : j ∉ cantonIndices df c' := by
  intro hj'
  have h1 := ((mem_cantonIndices df c j).mp hj).2
  have h2 := ((mem_cantonIndices df c' j).mp hj').2
  rw [h1] at h2
  exact hne (Option.some.injEq _ _ ▸ h2)

theorem visitSeries_fst_frame (fillna : Bool) (col canton : String)
    (acc : List Row × List (ℕ × String)) (j : ℕ) (col' : String)
    (h : col' ≠ col ∨ j ∉ cantonIndices acc.1 canton) :
    getCellAt (visitSeries fillna col canton acc).1 j col' = getCellAt acc.1 j col' :=
  foldl_visitCell_frame fillna col (cantonIndices acc.1 canton)
    ⟨acc.1, acc.2, false, 0⟩ j col' h

theorem visitSeries_nowrite (fillna : Bool) (col canton : String)
    (acc : List Row × List (ℕ × String))
    (h : ∀ i ∈ cantonIndices acc.1 canton, (getCellAt acc.1 i col).isSome) :
    (visitSeries fillna col canton acc).1 = acc.1 :=
  foldl_visitCell_nowrite fillna col (cantonIndices acc.1 canton)
    ⟨acc.1, acc.2, false, 0⟩ h

theorem visitSeries_inc (fillna : Bool) (col canton : String) (D : List Row)
    (inc : List (ℕ × String)) :
    visitSeries fillna col canton (D, inc)
      = ((visitSeries fillna col canton (D, [])).1,
         inc ++ (visitSeries fillna col canton (D, [])).2) := by
  have h := foldl_visitCell_inc fillna col (cantonIndices D canton) D inc false 0
  exact Prod.ext h.1 h.2

theorem visitSeries_master (fillna : Bool) (col canton : String) (D : List Row)
    (inc : List (ℕ × String)) :
    ((visitSeries fillna col canton (D, inc)).2
      = inc ++ ((cantonIndices D canton).zip (seriesProc fillna false 0
          (seriesCellsOf D (col, canton)))).filterMap
          (fun q => if q.2.2 = true then some (q.1, col) else none)) ∧
    ((cantonIndices D canton).map
        (fun i => getCellAt (visitSeries fillna col canton (D, inc)).1 i col)
      = (seriesProc fillna false 0 (seriesCellsOf D (col, canton))).map Prod.fst) := by
  have h := foldl_visitCell_master fillna col (cantonIndices D canton) D inc false 0
    (cantonIndices_nodup D canton) (fun i hi => cantonIndices_lt D canton i hi)
  exact ⟨h.2, h.1⟩

/-! ### The validator as a fold over (column, canton) pairs -/

theorem check_eq_pairFold (df : List Row) (columns : List String) (fillna : Bool) :
    check_inconsistencies df columns fillna
      = pairFold fillna (colCantonPairs columns (uniqueList (df.map Row.canton)))
          (df, []) := by
  unfold check_inconsistencies pairFold colCantonPairs
  generalize uniqueList (df.map Row.canton) = cantons
  suffices h : ∀ (cols : List String) (acc : List Row × List (ℕ × String)),
      cols.foldl (fun acc col =>
        cantons.foldl (fun acc canton => visitSeries fillna col canton acc) acc) acc
      = ((cols.map (fun col => cantons.map (fun canton => (col, canton)))).flatten).foldl
          (fun a p => visitSeries fillna p.1 p.2 a) acc by
    exact h columns (df, [])
  intro cols
  induction cols with
  | nil => intro acc; rfl
  | cons c cs ih =>
    intro acc
    simp only [List.foldl_cons, List.map_cons, List.flatten_cons, List.foldl_append]
    rw [← ih, List.foldl_map]

theorem pairFold_shape (fillna : Bool) (P : List (String × String))
    (acc : List Row × List (ℕ × String)) :
    (pairFold fillna P acc).1.length = acc.1.length ∧
    (pairFold fillna P acc).1.map Row.canton = acc.1.map Row.canton ∧
    (pairFold fillna P acc).1.map Row.date = acc.1.map Row.date := by
  induction P generalizing acc with
  | nil => exact ⟨rfl, rfl, rfl⟩
  | cons p rest ih =>
    have h1 := visitSeries_shape fillna p.1 p.2 acc
    have h2 := ih (visitSeries fillna p.1 p.2 acc)
    simp only [pairFold, List.foldl_cons] at h2 ⊢
    exact ⟨h2.1.trans h1.1, h2.2.1.trans h1.2.1, h2.2.2.trans h1.2.2⟩

theorem pairFold_frame (fillna : Bool) (P : List (String × String))
    (acc : List Row × List (ℕ × String)) (j : ℕ) (col' : String)
    (h : ∀ q ∈ P, col' ≠ q.1 ∨ j ∉ cantonIndices acc.1 q.2) :
    getCellAt (pairFold fillna P acc).1 j col' = getCellAt acc.1 j col' := by
  induction P generalizing acc with
  | nil => rfl
  | cons q rest ih =>
    simp only [pairFold, List.foldl_cons] at ih ⊢
    have hstep := visitSeries_fst_frame fillna q.1 q.2 acc j col'
      (h q (List.mem_cons_self q rest))
    rw [ih (visitSeries fillna q.1 q.2 acc) ?_, hstep]
    intro q' hq'
    rcases h q' (List.mem_cons_of_mem q hq') with h' | h'
    · exact Or.inl h'
    · refine Or.inr ?_
      rw [cantonIndices_congr (visitSeries fillna q.1 q.2 acc).1 acc.1 q'.2
        (visitSeries_shape fillna q.1 q.2 acc).2.1]
      exact h'

theorem pairFold_inc (fillna : Bool) (P : List (String × String)) (D : List Row)
    (inc : List (ℕ × String)) :
    pairFold fillna P (D, inc)
      = ((pairFold fillna P (D, [])).1, inc ++ (pairFold fillna P (D, [])).2) := by
  induction P generalizing D inc with
  | nil => simp [pairFold]
  | cons q rest ih =>
    simp only [pairFold, List.foldl_cons] at ih ⊢
    rw [visitSeries_inc fillna q.1 q.2 D inc]
    rw [ih (visitSeries fillna q.1 q.2 (D, [])).1
      (inc ++ (visitSeries fillna q.1 q.2 (D, [])).2)]
    have h0 : visitSeries fillna q.1 q.2 (D, [])
        = ((visitSeries fillna q.1 q.2 (D, [])).1,
           (visitSeries fillna q.1 q.2 (D, [])).2) := rfl
    conv_rhs => rw [h0]
    rw [ih (visitSeries fillna q.1 q.2 (D, [])).1
      (visitSeries fillna q.1 q.2 (D, [])).2]
    simp [List.append_assoc]

/-! ### The two-pass fixed-point theorem -/

theorem pairFold_twoPass (P : List (String × String)) (D : List Row)
    (hnd : P.Nodup)
    (hnn : ∀ p ∈ P, ∀ v : ℚ, some v ∈ seriesCellsOf D p → 0 ≤ v) :
    pairFold true P ((pairFold true P (D, [])).1, []) = pairFold true P (D, []) := by
  induction P generalizing D with
  | nil => rfl
  | cons p rest ih =>
    have hpnotmem : p ∉ rest := (List.nodup_cons.mp hnd).1
    have hndrest : rest.Nodup := (List.nodup_cons.mp hnd).2
    set A := visitSeries true p.1 p.2 (D, []) with hA
    have hcmapA : A.1.map Row.canton = D.map Row.canton :=
      (visitSeries_shape true p.1 p.2 (D, [])).2.1
    have hidxA : cantonIndices A.1 p.2 = cantonIndices D p.2 :=
      cantonIndices_congr A.1 D p.2 hcmapA
    have hstep1 : pairFold true (p :: rest) (D, []) = pairFold true rest A := by
      simp only [pairFold, List.foldl_cons]
    have hsplitA : A = (A.1, A.2) := rfl
    have hrest : pairFold true rest (A.1, A.2)
        = ((pairFold true rest (A.1, [])).1,
           A.2 ++ (pairFold true rest (A.1, [])).2) :=
      pairFold_inc true rest A.1 A.2
    set G := (pairFold true rest (A.1, [])).1 with hG
    set Δr := (pairFold true rest (A.1, [])).2 with hDr
    have hpass1 : pairFold true (p :: rest) (D, []) = (G, A.2 ++ Δr) := by
      rw [hstep1]
      conv_lhs => rw [hsplitA]
      rw [hrest]
    have hcmapG : G.map Row.canton = A.1.map Row.canton :=
      (pairFold_shape true rest (A.1, [])).2.1
    have hidxG : cantonIndices G p.2 = cantonIndices D p.2 := by
      rw [cantonIndices_congr G A.1 p.2 hcmapG, hidxA]
    have hdisj : ∀ j ∈ cantonIndices D p.2, ∀ q ∈ rest,
        p.1 ≠ q.1 ∨ j ∉ cantonIndices A.1 q.2 := by
      intro j hj q hq
      by_cases hcq : p.1 = q.1
      · refine Or.inr ?_
        have hqp : q ≠ p := fun he => hpnotmem (he ▸ hq)
        have hc2 : p.2 ≠ q.2 := fun he2 => hqp (Prod.ext hcq.symm he2.symm)
        rw [cantonIndices_congr A.1 D q.2 hcmapA]
        exact cantonIndices_disjoint D p.2 q.2 hc2 j hj
      · exact Or.inl hcq
    have hY : (cantonIndices D p.2).map (fun i => getCellAt A.1 i p.1)
        = (seriesProc true false 0 (seriesCellsOf D p)).map Prod.fst :=
      (visitSeries_master true p.1 p.2 D []).2
    have hGcells : (cantonIndices D p.2).map (fun i => getCellAt G i p.1)
        = (cantonIndices D p.2).map (fun i => getCellAt A.1 i p.1) := by
      refine List.map_congr_left ?_
      intro j hj
      exact pairFold_frame true rest (A.1, []) j p.1 (fun q hq => hdisj j hj q hq)
    have hGsome : ∀ i ∈ cantonIndices G p.2, (getCellAt G i p.1).isSome := by
      intro i hi
      rw [hidxG] at hi
      have hmem : getCellAt G i p.1
          ∈ (cantonIndices D p.2).map (fun i => getCellAt G i p.1) :=
        List.mem_map.mpr ⟨i, hi, rfl⟩
      rw [hGcells, hY] at hmem
      rcases List.mem_map.mp hmem with ⟨q', hq', hqe⟩
      rw [← hqe]
      exact seriesProc_fill_isSome false 0 (seriesCellsOf D p) q' hq'
    have hnwG : (visitSeries true p.1 p.2 (G, [])).1 = G :=
      visitSeries_nowrite true p.1 p.2 (G, []) hGsome
    have hcellsG : seriesCellsOf G p
        = (seriesProc true false 0 (seriesCellsOf D p)).map Prod.fst := by
      show (cantonIndices G p.2).map (fun i => getCellAt G i p.1) = _
      rw [hidxG, hGcells, hY]
    have hidem : seriesProc true false 0
          ((seriesProc true false 0 (seriesCellsOf D p)).map Prod.fst)
        = seriesProc true false 0 (seriesCellsOf D p) :=
      seriesProc_idem (seriesCellsOf D p) false false 0
        (hnn p (List.mem_cons_self p rest)) le_rfl (fun h => h) (fun _ => rfl)
    have hδ2 : (visitSeries true p.1 p.2 (G, [])).2 = A.2 := by
      have h2 := (visitSeries_master true p.1 p.2 G []).1
      have h1 := (visitSeries_master true p.1 p.2 D []).1
      rw [h2, hidxG, hcellsG, hidem]
      rw [hA, h1]
    have hhead2 : visitSeries true p.1 p.2 (G, []) = (G, A.2) :=
      Prod.ext hnwG hδ2
    have hnnrest : ∀ q ∈ rest, ∀ v : ℚ, some v ∈ seriesCellsOf A.1 q → 0 ≤ v := by
      intro q hq v hvm
      have hqp : q ≠ p := fun he => hpnotmem (he ▸ hq)
      have hcells : seriesCellsOf A.1 q = seriesCellsOf D q := by
        show (cantonIndices A.1 q.2).map (fun i => getCellAt A.1 i q.1)
          = (cantonIndices D q.2).map (fun i => getCellAt D i q.1)
        rw [cantonIndices_congr A.1 D q.2 hcmapA]
        refine List.map_congr_left ?_
        intro j hj
        refine visitSeries_fst_frame true p.1 p.2 (D, []) j q.1 ?_
        by_cases hcq : q.1 = p.1
        · refine Or.inr ?_
          have hc2 : q.2 ≠ p.2 := fun he2 => hqp (Prod.ext hcq he2)
          exact cantonIndices_disjoint D q.2 p.2 hc2 j hj
        · exact Or.inl hcq
      rw [hcells] at hvm
      exact hnn q (List.mem_cons_of_mem p hq) v hvm
    have hIH := ih A.1 hndrest hnnrest
    rw [hpass1]
    dsimp only
    have hstep2 : pairFold true (p :: rest) (G, [])
        = pairFold true rest (visitSeries true p.1 p.2 (G, [])) := by
      simp only [pairFold, List.foldl_cons]
    rw [hstep2, hhead2, pairFold_inc true rest G A.2, hIH]

theorem nodup_colCantonPairs (cols cantons : List String)
    (h1 : cols.Nodup) (h2 : cantons.Nodup) :
    (colCantonPairs cols cantons).Nodup := by
  unfold colCantonPairs
  induction cols with
  | nil => simp
  | cons c cs ih =>
    simp only [List.map_cons, List.flatten_cons]
    rw [List.nodup_append]
    refine ⟨?_, ih (List.Nodup.of_cons h1), ?_⟩
    · exact h2.map (fun x y hxy => by simpa using congrArg Prod.snd hxy)
    · intro x hx hx'
      rcases List.mem_map.mp hx with ⟨canton, _, rfl⟩
      rcases List.mem_flatten.mp hx' with ⟨l, hl, hxl⟩
      rcases List.mem_map.mp hl with ⟨c', hc', rfl⟩
      rcases List.mem_map.mp hxl with ⟨canton', _, hcd⟩
      have : c' = c := by simpa using congrArg Prod.fst hcd
      subst this
      exact (List.nodup_cons.mp h1).1 hc'

theorem mem_colCantonPairs (cols cantons : List String) (p : String × String)
    (h : p ∈ colCantonPairs cols cantons) : p.1 ∈ cols ∧ p.2 ∈ cantons := by
  unfold colCantonPairs at h
  rcases List.mem_flatten.mp h with ⟨l, hl, hpl⟩
  rcases List.mem_map.mp hl with ⟨col, hcol, rfl⟩
  rcases List.mem_map.mp hpl with ⟨canton, hcanton, hpe⟩
  rw [← hpe]
  exact ⟨hcol, hcanton⟩

/-! ### Claim C8 — idempotence of the fill pass -/

/-- C8: running the Monotonicity Validator with `fillna = true` and then
running it again with `fillna = true` on the resulting table reproduces
that table exactly and returns the same anomaly list — the filled table is
a fixed point, the second pass performs no new fills and records nothing
that the first pass did not already record.  The hypotheses reflect the
data model (distinct configured column names, non-negative metric
values). -/
theorem C8_fill_idempotent (df : List Row) (cols : List String)
    (hnd : cols.Nodup)
    (hnn : ∀ r ∈ df, ∀ c ∈ cols, 0 ≤ ((r.cells c).getD 0)) :
    check_inconsistencies (check_inconsistencies df cols true).1 cols true
      = check_inconsistencies df cols true := by
  have hcmap : (check_inconsistencies df cols true).1.map Row.canton
      = df.map Row.canton := (check_inconsistencies_shape df cols true).2.1
  have hre : check_inconsistencies (check_inconsistencies df cols true).1 cols true
      = pairFold true (colCantonPairs cols (uniqueList (df.map Row.canton)))
          ((check_inconsistencies df cols true).1, []) := by
    rw [check_eq_pairFold, hcmap]
  rw [hre, check_eq_pairFold df cols true]
  refine pairFold_twoPass _ df ?_ ?_
  · exact nodup_colCantonPairs cols _ hnd (nodup_uniqueList _)
  · intro p hp v hvm
    have hp1 := (mem_colCantonPairs cols _ p hp).1
    unfold seriesCellsOf at hvm
    rcases List.mem_map.mp hvm with ⟨i, _, hcell⟩
    cases hget : df.get? i with
    | none =>
      unfold getCellAt at hcell
      rw [hget] at hcell
      exact Option.noConfusion hcell
    | some r =>
      have hr : r ∈ df := List.get?_mem hget
      have hcv : r.cells p.1 = some v := by
        unfold getCellAt at hcell
        rw [hget] at hcell
        exact hcell
      have hle := hnn r hr p.1 hp1
      rw [hcv] at hle
      simpa using hle

/-- C8, witness: the idempotence theorem applied to a concrete table with
leading gaps, a mid-series gap and an anomaly, over one cumulative
column. -/
theorem C8_witness :
    check_inconsistencies (check_inconsistencies dfC8w ["c"] true).1 ["c"] true
      = check_inconsistencies dfC8w ["c"] true :=
  C8_fill_idempotent dfC8w ["c"] (by decide) (by decide)

end Covid
